import Mathlib

/-!
Verification of the CIFAR-10 batch-ingestion and tensor-assembly pipeline
(`tensorflow_cnn/load_cifar10.py`).

The shallow embedding below follows the Python source function by function.
Machine floats are modelled as rationals (the only arithmetic performed is
division of a byte value by 255, which is exact); numpy arrays are modelled
as (nested) lists; the pickled-file boundary (`open` + `cPickle.load`) is
modelled as an environment `FS` mapping a file path to either the
deserialized dictionary or an error; Python exceptions are modelled with
`Except LoadError`.
-/

namespace LoadCifar10

/-- Decidable equality of `Except` results, so that concrete runs of the
pipeline can be checked by `decide`. -/
instance instDecEqExcept {ε α : Type} [DecidableEq ε] [DecidableEq α] :
    DecidableEq (Except ε α) := fun x y =>
  match x, y with
  | .ok a, .ok b =>
      if h : a = b then .isTrue (by rw [h]) else .isFalse (by simp [h])
  | .error a, .error b =>
      if h : a = b then .isTrue (by rw [h]) else .isFalse (by simp [h])
  | .ok _, .error _ => .isFalse (by simp)
  | .error _, .ok _ => .isFalse (by simp)

/-- Error taxonomy of the spec (§7), mapped onto the Python failure modes:
`ShardUnavailable` is an `IOError`/unpickling failure at the deserialization
boundary, `InvalidClassId` is the `IndexError` escaping numpy fancy indexing
in `one_hot_encoded`, `ShardSizeMismatch` is the numpy broadcast failure of
the slice assignment `images[begin:end, :] = images_batch` when the batch
does not fit the remaining pre-allocated capacity, and `ValueError` covers
the remaining numpy `ValueError`s (bad reshape, broadcast failure of the
label assignment, `np.max` of an empty array, `np.eye` of a negative size). -/
inductive LoadError where
  | ShardUnavailable
  | InvalidClassId
  | ShardSizeMismatch
  | ValueError
  deriving DecidableEq

/-- Constant `DATA_PATH = "cifar-10-batches-py/"`. -/
def DATA_PATH : String := "cifar-10-batches-py/"

/-- Constant `img_size = 32`. -/
def img_size : Nat := 32

/-- Constant `num_channels = 3`. -/
def num_channels : Nat := 3

/-- Constant `img_size_flat = img_size * img_size * num_channels`. -/
def img_size_flat : Nat := img_size * img_size * num_channels

/-- Constant `num_classes = 10`. -/
def num_classes : Nat := 10

/-- Constant `_num_files_train = 5`. -/
def _num_files_train : Nat := 5

/-- Constant `_images_per_file = 10000`. -/
def _images_per_file : Nat := 10000

/-- Constant `_num_images_train = _num_files_train * _images_per_file`. -/
def _num_images_train : Nat := _num_files_train * _images_per_file

/-- numpy indexing into an axis of length `n`: an index `i` with
`0 ≤ i < n` selects position `i`, a negative index with `-n ≤ i < 0`
wraps around to position `n + i`, anything else is an `IndexError`. -/
def npIndex (n : Nat) (i : Int) : Option Nat :=
  if 0 ≤ i ∧ i < (n : Int) then some i.toNat
  else if -(n : Int) ≤ i ∧ i < 0 then some (i + n).toNat
  else none

/-- Row `j` of `np.eye(n)`: the length-`n` standard basis vector with the
`1.0` at column `j`. -/
def eyeRow (n j : Nat) : List ℚ :=
  (List.range n).map fun k => if k = j then 1 else 0

/-- Function `np.max` on a nonempty integer array (`[]` is mapped to `0`; the Python
call raises on an empty array, which the caller checks separately). -/
def npMax : List Int → Int
  | [] => 0
  | a :: rest => rest.foldl max a

/-- The derived class count used by `one_hot_encoded` when `num_classes`
is `None`: `np.max(class_numbers) - 1`. -/
def derive_num_classes (class_numbers : List Int) : Int :=
  npMax class_numbers - 1

/-- Expression `np.eye(n, dtype=float)[class_numbers]`: numpy fancy indexing selects,
for every entry, the corresponding row of the identity matrix; it fails
with an `IndexError` (surfaced as `InvalidClassId`) as soon as any entry
is outside the valid index range `[-n, n)`. -/
def one_hot_rows (n : Nat) (class_numbers : List Int) :
    Except LoadError (List (List ℚ)) :=
  if ∀ i ∈ class_numbers, (npIndex n i).isSome then
    .ok (class_numbers.map fun i => eyeRow n ((npIndex n i).getD 0))
  else .error .InvalidClassId

/-- Function `one_hot_encoded(class_numbers, num_classes=None)`: if `num_classes`
is `None` it is derived as `np.max(class_numbers) - 1` (the preserved
off-by-one quirk), then the rows of `np.eye(num_classes)` are selected by
fancy indexing.  `np.max` of an empty array and `np.eye` of a negative
size raise `ValueError`. -/
def one_hot_encoded (class_numbers : List Int) (nc : Option Nat) :
    Except LoadError (List (List ℚ)) :=
  match nc with
  | some n => one_hot_rows n class_numbers
  | none =>
      if class_numbers = [] then .error .ValueError
      else
        let m := derive_num_classes class_numbers
        if m < 0 then .error .ValueError
        else one_hot_rows m.toNat class_numbers

/-- An image in the pipeline's output layout: `height × width × channels`
nested lists of normalized pixel values. -/
abbrev Image := List (List (List ℚ))

/-- Expression `raw_float.reshape([-1, d1, d2, d3])`: view the flat buffer as
`count` blocks of `d1` planes of `d2 × d3` entries, row-major, without
reordering elements (`count` is inferred as `length / (d1*d2*d3)`). -/
def reshape4 (d1 d2 d3 : Nat) (flat : List ℚ) :
    List (List (List (List ℚ))) :=
  (List.range (flat.length / (d1 * d2 * d3))).map fun n =>
    (List.range d1).map fun i =>
      (List.range d2).map fun j =>
        (List.range d3).map fun k =>
          flat.getD (n * (d1 * d2 * d3) + i * (d2 * d3) + j * d3 + k) 0

/-- The per-image effect of `images.transpose([0, 2, 3, 1])`: a pure axis
relabeling taking the `channels × height × width` block to
`height × width × channels` (`out[y][x][c] = in[c][y][x]`). -/
def transpose_hwc (img : List (List (List ℚ))) : Image :=
  (List.range (img.getD 0 []).length).map fun y =>
    (List.range ((img.getD 0 []).getD 0 []).length).map fun x =>
      (List.range img.length).map fun c =>
        ((img.getD c []).getD y []).getD x 0

/-- The reconstruction algorithm of `_convert_images` with the module
constants `num_channels` and `img_size` as parameters: divide every raw
byte by 255.0, reshape to `[-1, ch, sz, sz]` (a `ValueError` if the buffer
length is not a multiple of `ch * sz * sz`), then transpose to
`[-1, sz, sz, ch]`. -/
def convertGeneric (ch sz : Nat) (raw : List Nat) :
    Except LoadError (List Image) :=
  let raw_float : List ℚ := raw.map fun (b : Nat) => (b : ℚ) / 255
  if 0 < ch * sz * sz ∧ ch * sz * sz ∣ raw.length then
    .ok ((reshape4 ch sz sz raw_float).map transpose_hwc)
  else .error .ValueError

/-- Function `_convert_images(raw)`: the generic algorithm at the module constants
`num_channels = 3`, `img_size = 32`. -/
def _convert_images (raw : List Nat) : Except LoadError (List Image) :=
  convertGeneric num_channels img_size raw

/-- The image all of whose pixel values are a fixed rational `q`
(`sz × sz × ch`). -/
def constImage (ch sz : Nat) (q : ℚ) : Image :=
  List.replicate sz (List.replicate sz (List.replicate ch q))

/-- One row of `np.zeros(shape=[_, img_size, img_size, num_channels])`:
the all-zero `32 × 32 × 3` image. -/
def zeroImage : Image :=
  constImage num_channels img_size 0

/-- The deserialized dictionary of one pickled batch file: the fields
`b'data'` (flat pixel buffer), `b'labels'` (class numbers) and, for the
metadata shard, `b'label_names'`. -/
structure RawDict where
  data : List Nat
  labels : List Int
  label_names : List String
  deriving DecidableEq

/-- The file-system / deserialization boundary: maps a full file path to
the deserialized dictionary, or to the error raised while opening or
unpickling it. -/
abbrev FS := String → Except LoadError RawDict

/-- Function `_unpickle(filename)`: open and deserialize `DATA_PATH + filename`. -/
def _unpickle (fs : FS) (filename : String) : Except LoadError RawDict :=
  fs (DATA_PATH ++ filename)

/-- Function `_load_data(filename)`: unpickle the shard, take the raw pixel buffer
and the class numbers, and convert the images. -/
def _load_data (fs : FS) (filename : String) :
    Except LoadError (List Image × List Int) := do
  let d ← _unpickle fs filename
  let images ← _convert_images d.data
  return (images, d.labels)

/-- Function `load_class_names()`: the `b'label_names'` field of the metadata
shard `batches.meta`. -/
def load_class_names (fs : FS) : Except LoadError (List String) := do
  let d ← _unpickle fs "batches.meta"
  return d.label_names

/-- numpy slice assignment `arr[b:e] = vals`: the slice bounds are clamped
to the array length and `vals` is broadcast into the clamped selection.
Broadcasting succeeds when the value block matches the clamped slice
extent, or when it has leading size 1 — a single row is then repeated
across the selection (including into an empty selection, where the
assignment is a silent no-op).  Any other mismatch raises a numpy
broadcast error, surfaced as `err`. -/
def sliceAssign {α : Type} (arr : List α) (b e : Nat) (vals : List α)
    (err : LoadError) : Except LoadError (List α) :=
  if vals.length = min e arr.length - min b arr.length then
    .ok (arr.take (min b arr.length) ++ vals ++ arr.drop (min e arr.length))
  else if vals.length = 1 then
    .ok (arr.take (min b arr.length) ++
      (vals.flatMap fun v =>
        List.replicate (min e arr.length - min b arr.length) v) ++
      arr.drop (min e arr.length))
  else .error err

/-- The `for i in range(_num_files_train)` loop of `load_training_data`:
load shard `data_batch_(i+1)`, copy its image block and labels into the
pre-allocated arrays at the next contiguous offset range (an image block
of two or more rows not fitting the remaining capacity is the
`ShardSizeMismatch` condition; a single row broadcasts, so at full
capacity it is silently dropped; a mismatching label block is the
broadcast `ValueError`), and advance the offset by the shard's own image
count. -/
def trainLoop (fs : FS) : List Nat → Nat → List Image → List Int →
    Except LoadError (List Image × List Int)
  | [], _, images, cls => .ok (images, cls)
  | i :: rest, b, images, cls => do
      let batch ← _load_data fs ("data_batch_" ++ toString (i + 1))
      let images2 ← sliceAssign images b (b + batch.1.length) batch.1
        .ShardSizeMismatch
      let cls2 ← sliceAssign cls b (b + batch.1.length) batch.2 .ValueError
      trainLoop fs rest (b + batch.1.length) images2 cls2

/-- Function `load_training_data()`: pre-allocate zero arrays of `_num_images_train`
rows, merge the five training shards at contiguous offsets, and one-hot
encode the merged class-number vector with the explicit `num_classes`. -/
def load_training_data (fs : FS) :
    Except LoadError (List Image × List Int × List (List ℚ)) := do
  let p ← trainLoop fs (List.range _num_files_train) 0
      (List.replicate _num_images_train zeroImage)
      (List.replicate _num_images_train 0)
  let oh ← one_hot_encoded p.2 (some num_classes)
  return (p.1, p.2, oh)

/-- Function `load_test_data()`: load the single test shard and one-hot encode its
class numbers with the explicit `num_classes`. -/
def load_test_data (fs : FS) :
    Except LoadError (List Image × List Int × List (List ℚ)) := do
  let p ← _load_data fs "test_batch"
  let oh ← one_hot_encoded p.2 (some num_classes)
  return (p.1, p.2, oh)

/-- One split of the returned dataset dictionary: the fields `"images"`,
`"cls"` and `"labels"`. -/
structure Split where
  images : List Image
  cls : List Int
  labels : List (List ℚ)

/-- The returned dataset dictionary: the `"train"` and `"test"` splits. -/
structure Dataset where
  train : Split
  test : Split

/-- The external visualization collaborator
`plot_functions.plot_images(images, class_names, cls_true)`: a
side-effecting call whose return value is ignored but whose exception,
if any, propagates. -/
abbrev PlotFn := List Image → List String → List Int → Except LoadError Unit

/-- Function `load_data(show_example_images)`: load the training split, the test
split and the class names, optionally forward the first 9 training images
with their true class numbers to the visualization collaborator, and
return the class names with the dataset dictionary. -/
def load_data (fs : FS) (plotFn : PlotFn) (show_example_images : Bool) :
    Except LoadError (List String × Dataset) := do
  let t ← load_training_data fs
  let u ← load_test_data fs
  let class_names ← load_class_names fs
  if show_example_images then
    plotFn (t.1.take 9) class_names (t.2.1.take 9)
  return (class_names,
    ⟨⟨t.1, t.2.1, t.2.2⟩, ⟨u.1, u.2.1, u.2.2⟩⟩)

/-- The result of `_load_data` for training shard `i` (0-based): shard
`data_batch_(i+1)`. -/
def batchOf (fs : FS) (i : Nat) :
    Except LoadError (List Image × List Int) :=
  _load_data fs ("data_batch_" ++ toString (i + 1))

/-- The image count of training shard `i` (0 if the shard fails). -/
def batchSize (fs : FS) (i : Nat) : Nat :=
  match batchOf fs i with
  | .ok p => p.1.length
  | .error _ => 0

/-- The reconstructed images of training shard `i` ([] if it fails). -/
def batchImages (fs : FS) (i : Nat) : List Image :=
  match batchOf fs i with
  | .ok p => p.1
  | .error _ => []

/-- The class numbers of training shard `i` ([] if it fails). -/
def batchCls (fs : FS) (i : Nat) : List Int :=
  match batchOf fs i with
  | .ok p => p.2
  | .error _ => []

/-- The total image count supplied by a list of training shards. -/
def sizeSum (fs : FS) (idxs : List Nat) : Nat :=
  (idxs.map (batchSize fs)).sum

/-- Training shard `i` loads successfully and its label block matches its
image count (it can be copied at the same offset range). -/
def okConsistent (fs : FS) (i : Nat) : Prop :=
  ∃ p, batchOf fs i = .ok p ∧ p.2.length = p.1.length

/-- All training-shard images, concatenated in shard order. -/
def trainImagesOf (fs : FS) : List Image :=
  ((List.range _num_files_train).map (batchImages fs)).flatten

/-- All training-shard class numbers, concatenated in shard order. -/
def trainClsOf (fs : FS) : List Int :=
  ((List.range _num_files_train).map (batchCls fs)).flatten

/-- The one-hot row produced for class number `i` at the module constant
`num_classes`. -/
def ohRow (i : Int) : List ℚ :=
  eyeRow num_classes ((npIndex num_classes i).getD 0)

/-- Well-formedness of one reconstructed image: the axes are ordered
`height × width × channels` at the fixed sizes `32 × 32 × 3` and every
pixel value lies in `[0, 1]`. -/
def ImgOK (img : Image) : Prop :=
  img.length = img_size ∧
  ∀ row ∈ img, row.length = img_size ∧
    ∀ px ∈ row, px.length = num_channels ∧
      ∀ q ∈ px, 0 ≤ q ∧ q ≤ 1

/-- The per-split invariants of the spec: the three components have equal
lengths, every image is well-formed (`[N, height, width, channels]` axes,
pixel values in `[0, 1]`), and row `i` of the one-hot matrix has its `1.0`
exactly at column `class_ids[i]`. -/
def SplitOK (r : List Image × List Int × List (List ℚ)) : Prop :=
  r.1.length = r.2.1.length ∧ r.2.1.length = r.2.2.length ∧
  (∀ img ∈ r.1, ImgOK img) ∧
  ∀ i < r.2.2.length,
    (r.2.2.getD i []).getD (r.2.1.getD i 0).toNat 0 = 1 ∧
    ∀ j < num_classes, j ≠ (r.2.1.getD i 0).toNat →
      (r.2.2.getD i []).getD j 0 = 0

/-- The boundary preconditions of the spec's data model (§3): every shard
the environment can deliver holds byte-valued pixels, class numbers in
`[0, num_classes)`, and a pixel buffer sized for exactly one image per
label. -/
def ValidFS (fs : FS) : Prop :=
  ∀ name d, fs name = .ok d →
    (∀ b ∈ d.data, b ≤ 255) ∧
    (∀ c ∈ d.labels, 0 ≤ c ∧ c < (num_classes : Int)) ∧
    d.data.length = d.labels.length * img_size_flat

/-- A no-op visualization collaborator. -/
def plotNoop : PlotFn := fun _ _ _ => .ok ()

/-- A visualization collaborator that always fails. -/
def plotBad : PlotFn := fun _ _ _ => .error .ValueError

/-- An environment in which every shard deserializes to the empty
dictionary (no images, no labels, no class names). -/
def fsEmpty : FS := fun _ => .ok ⟨[], [], []⟩

/-- An environment in which no shard can be opened. -/
def fsBad : FS := fun _ => .error .ShardUnavailable

/-- An environment in which training shard 1 holds two constant images
(byte value 7) with class numbers `[1, 2]`, training shard 2 holds three
constant images (byte value 9) with class numbers `[3, 4, 5]`, and every
other shard is empty. -/
def fsAB : FS := fun name =>
  if name = DATA_PATH ++ "data_batch_1" then
    .ok ⟨List.replicate (2 * (num_channels * img_size * img_size)) 7,
      [1, 2], []⟩
  else if name = DATA_PATH ++ "data_batch_2" then
    .ok ⟨List.replicate (3 * (num_channels * img_size * img_size)) 9,
      [3, 4, 5], []⟩
  else .ok ⟨[], [], []⟩

/-- An environment in which training shard 1 fills the pre-allocated
capacity exactly (50000 constant images, byte value 7, all class number
1), training shard 2 holds one further image (byte value 9, class
number 3), and every other shard is empty. -/
def fsFull : FS := fun name =>
  if name = DATA_PATH ++ "data_batch_1" then
    .ok ⟨List.replicate
        (_num_images_train * (num_channels * img_size * img_size)) 7,
      List.replicate _num_images_train 1, []⟩
  else if name = DATA_PATH ++ "data_batch_2" then
    .ok ⟨List.replicate (1 * (num_channels * img_size * img_size)) 9,
      [3], []⟩
  else .ok ⟨[], [], []⟩

/-! ### Helper lemmas: lists, `Except`, one-hot encoding -/

theorem except_bind_ok {ε α β : Type} (a : α) (f : α → Except ε β) :
    ((Except.ok a : Except ε α) >>= f) = f a := rfl

theorem except_bind_error {ε α β : Type} (e : ε) (f : α → Except ε β) :
    ((Except.error e : Except ε α) >>= f) = .error e := rfl

theorem getD_range_map {α : Type} (f : Nat → α) (d : α) {n i : Nat}
    (h : i < n) : ((List.range n).map f).getD i d = f i := by
  rw [List.getD_eq_getElem?_getD, List.getElem?_map, List.getElem?_range h]
  rfl

theorem getD_map_lt {α β : Type} (f : α → β) (d : β) (d2 : α) {l : List α}
    {i : Nat} (h : i < l.length) :
    (l.map f).getD i d = f (l.getD i d2) := by
  rw [List.getD_eq_getElem?_getD, List.getD_eq_getElem?_getD,
    List.getElem?_map, List.getElem?_eq_getElem h]
  rfl

theorem getD_mem {α : Type} (d : α) {l : List α} {i : Nat}
    (h : i < l.length) : l.getD i d ∈ l := by
  rw [List.getD_eq_getElem?_getD, List.getElem?_eq_getElem h]
  exact List.getElem_mem h

theorem eyeRow_length (n j : Nat) : (eyeRow n j).length = n := by
  simp [eyeRow]

theorem eyeRow_getD_self {n j : Nat} (h : j < n) :
    (eyeRow n j).getD j 0 = 1 := by
  rw [eyeRow, getD_range_map _ _ h, if_pos rfl]

theorem eyeRow_getD_ne {n j k : Nat} (h : k < n) (hne : k ≠ j) :
    (eyeRow n j).getD k 0 = 0 := by
  rw [eyeRow, getD_range_map _ _ h, if_neg hne]

theorem npIndex_of_valid {n : Nat} {i : Int} (h0 : 0 ≤ i)
    (h1 : i < (n : Int)) : npIndex n i = some i.toNat := by
  rw [npIndex, if_pos ⟨h0, h1⟩]

theorem one_hot_rows_ok {n : Nat} {cls : List Int}
    (h : ∀ i ∈ cls, (npIndex n i).isSome) :
    one_hot_rows n cls =
      .ok (cls.map fun i => eyeRow n ((npIndex n i).getD 0)) := by
  rw [one_hot_rows, if_pos h]

theorem one_hot_rows_error {n : Nat} {cls : List Int}
    (h : ¬ ∀ i ∈ cls, (npIndex n i).isSome) :
    one_hot_rows n cls = .error .InvalidClassId := by
  rw [one_hot_rows, if_neg h]

theorem one_hot_rows_ok_inv {n : Nat} {cls : List Int}
    {rows : List (List ℚ)} (h : one_hot_rows n cls = .ok rows) :
    rows = (cls.map fun i => eyeRow n ((npIndex n i).getD 0)) ∧
      ∀ i ∈ cls, (npIndex n i).isSome := by
  by_cases hv : ∀ i ∈ cls, (npIndex n i).isSome
  · rw [one_hot_rows_ok hv] at h
    exact ⟨(Except.ok.inj h).symm, hv⟩
  · rw [one_hot_rows_error hv] at h
    exact Except.noConfusion h

theorem valid_of_bounds {n : Nat} {cls : List Int}
    (h : ∀ c ∈ cls, 0 ≤ c ∧ c < (n : Int)) :
    ∀ i ∈ cls, (npIndex n i).isSome := by
  intro i hi
  rw [npIndex_of_valid (h i hi).1 (h i hi).2]
  rfl

/-! ### Helper lemmas: image reconstruction -/

theorem convertGeneric_if {ch sz : Nat} {raw : List Nat}
    (hch : 0 < ch * sz * sz) (hdvd : ch * sz * sz ∣ raw.length) :
    convertGeneric ch sz raw =
      .ok ((reshape4 ch sz sz (raw.map fun (b : Nat) => (b : ℚ) / 255)).map
        transpose_hwc) := by
  rw [convertGeneric, if_pos ⟨hch, hdvd⟩]

theorem index_bound {ch sz count n y x c : Nat} (hn : n < count)
    (hy : y < sz) (hx : x < sz) (hc : c < ch) :
    n * (ch * sz * sz) + c * (sz * sz) + y * sz + x <
      count * (ch * sz * sz) := by
  have h1 : (y + 1) * sz ≤ sz * sz :=
    Nat.mul_le_mul_right sz (Nat.succ_le_of_lt hy)
  have h1e : (y + 1) * sz = y * sz + sz := by ring
  have h2 : (c + 1) * (sz * sz) ≤ ch * (sz * sz) :=
    Nat.mul_le_mul_right (sz * sz) (Nat.succ_le_of_lt hc)
  have h2e : (c + 1) * (sz * sz) = c * (sz * sz) + sz * sz := by ring
  have h3 : (n + 1) * (ch * sz * sz) ≤ count * (ch * sz * sz) :=
    Nat.mul_le_mul_right (ch * sz * sz) (Nat.succ_le_of_lt hn)
  have h3e : (n + 1) * (ch * sz * sz) =
      n * (ch * sz * sz) + ch * (sz * sz) := by ring
  linarith

theorem convertGeneric_spec {ch sz count : Nat} (raw : List Nat)
    (hch : 0 < ch) (hsz : 0 < sz)
    (hlen : raw.length = count * (ch * sz * sz)) :
    ∃ imgs, convertGeneric ch sz raw = .ok imgs ∧
      imgs.length = count ∧
      (∀ n y x c, n < count → y < sz → x < sz → c < ch →
        (((imgs.getD n []).getD y []).getD x []).getD c 0 =
          (raw.getD (n * (ch * sz * sz) + c * (sz * sz) + y * sz + x) 0 : ℚ)
            / 255) := by
  have hK : 0 < ch * sz * sz := by positivity
  have hdvd : ch * sz * sz ∣ raw.length := ⟨count, by rw [hlen]; ring⟩
  have hcount : raw.length / (ch * sz * sz) = count := by
    rw [hlen, Nat.mul_div_cancel _ hK]
  refine ⟨_, convertGeneric_if hK hdvd, ?_, ?_⟩
  · simp [reshape4, hcount]
  · intro n y x c hn hy hx hc
    have hn2 : n < (raw.map fun (b : Nat) => (b : ℚ) / 255).length /
        (ch * sz * sz) := by
      rw [List.length_map, hcount]; exact hn
    rw [reshape4, List.map_map, getD_range_map _ _ hn2]
    simp only [Function.comp_apply, transpose_hwc,
      getD_range_map _ _ hch, getD_range_map _ _ hsz,
      getD_range_map _ _ hy, getD_range_map _ _ hx, getD_range_map _ _ hc,
      List.length_map, List.length_range]
    have hidx : n * (ch * sz * sz) + c * (sz * sz) + y * sz + x <
        raw.length := by
      rw [hlen]; exact index_bound hn hy hx hc
    exact getD_map_lt _ _ 0 hidx

theorem getD_out {α : Type} (d : α) {l : List α} {i : Nat}
    (h : l.length ≤ i) : l.getD i d = d := by
  rw [List.getD_eq_getElem?_getD, List.getElem?_eq_none h]
  rfl

theorem reshape4_dims {d1 d2 d3 : Nat} {flat : List ℚ} {e}
    (he : e ∈ reshape4 d1 d2 d3 flat) :
    e.length = d1 ∧
      ∀ c < d1, (e.getD c []).length = d2 ∧
        ∀ y < d2, ((e.getD c []).getD y []).length = d3 := by
  rw [reshape4] at he
  obtain ⟨n, hn, rfl⟩ := List.mem_map.mp he
  refine ⟨by simp, fun c hc => ?_⟩
  rw [getD_range_map _ _ hc]
  refine ⟨by simp, fun y hy => ?_⟩
  rw [getD_range_map _ _ hy]
  simp

theorem reshape4_val {d1 d2 d3 : Nat} {flat : List ℚ} {e}
    (he : e ∈ reshape4 d1 d2 d3 flat) {c y x : Nat}
    (hc : c < d1) (hy : y < d2) (hx : x < d3) :
    ((e.getD c []).getD y []).getD x 0 ∈ flat ∨
      ((e.getD c []).getD y []).getD x 0 = 0 := by
  rw [reshape4] at he
  obtain ⟨n, hn, rfl⟩ := List.mem_map.mp he
  simp only [getD_range_map _ _ hc, getD_range_map _ _ hy,
    getD_range_map _ _ hx]
  by_cases hlt :
      n * (d1 * d2 * d3) + c * (d2 * d3) + y * d3 + x < flat.length
  · exact Or.inl (getD_mem _ hlt)
  · exact Or.inr (getD_out _ (by omega))

theorem transpose_hwc_shape {img : List (List (List ℚ))} {ch sz1 sz2 : Nat}
    (h1 : img.length = ch) (h2 : (img.getD 0 []).length = sz1)
    (h3 : ((img.getD 0 []).getD 0 []).length = sz2) :
    (transpose_hwc img).length = sz1 ∧
      ∀ row ∈ transpose_hwc img, row.length = sz2 ∧
        ∀ px ∈ row, px.length = ch ∧
          ∀ q ∈ px, ∃ c, c < ch ∧ ∃ y, y < sz1 ∧ ∃ x, x < sz2 ∧
            q = ((img.getD c []).getD y []).getD x 0 := by
  rw [transpose_hwc, h1, h2, h3]
  refine ⟨by simp, fun row hrow => ?_⟩
  obtain ⟨y, hy, rfl⟩ := List.mem_map.mp hrow
  refine ⟨by simp, fun px hpx => ?_⟩
  obtain ⟨x, hx, rfl⟩ := List.mem_map.mp hpx
  refine ⟨by simp, fun q hq => ?_⟩
  obtain ⟨c, hc, rfl⟩ := List.mem_map.mp hq
  exact ⟨c, List.mem_range.mp hc, y, List.mem_range.mp hy,
    x, List.mem_range.mp hx, rfl⟩

theorem convertGeneric_shape {ch sz : Nat} {raw : List Nat}
    {imgs : List Image} (h : convertGeneric ch sz raw = .ok imgs)
    (hb : ∀ b ∈ raw, b ≤ 255) :
    ∀ img ∈ imgs, img.length = sz ∧
      ∀ row ∈ img, row.length = sz ∧
        ∀ px ∈ row, px.length = ch ∧
          ∀ q ∈ px, 0 ≤ q ∧ q ≤ 1 := by
  by_cases hcond : 0 < ch * sz * sz ∧ ch * sz * sz ∣ raw.length
  · have hch : 0 < ch := by
      rcases Nat.eq_zero_or_pos ch with h0 | h0
      · rw [h0] at hcond; simp at hcond
      · exact h0
    have hsz : 0 < sz := by
      rcases Nat.eq_zero_or_pos sz with h0 | h0
      · rw [h0] at hcond; simp at hcond
      · exact h0
    rw [convertGeneric, if_pos hcond] at h
    have himgs := Except.ok.inj h
    intro img himg
    rw [← himgs] at himg
    obtain ⟨e, he, rfl⟩ := List.mem_map.mp himg
    have hd := reshape4_dims he
    have hd2 := (hd.2 0 hch).1
    have hd3 := (hd.2 0 hch).2 0 hsz
    have hts := transpose_hwc_shape hd.1 hd2 hd3
    refine ⟨hts.1, fun row hrow => ?_⟩
    have hr := hts.2 row hrow
    refine ⟨hr.1, fun px hpx => ?_⟩
    have hp := hr.2 px hpx
    refine ⟨hp.1, fun q hq => ?_⟩
    obtain ⟨c, hcc, y, hyy, x, hxx, rfl⟩ := hp.2 q hq
    rcases reshape4_val he hcc hyy hxx with hmem | hzero
    · obtain ⟨b, hbmem, hbe⟩ := List.mem_map.mp hmem
      rw [← hbe]
      constructor
      · positivity
      · rw [div_le_one (by norm_num)]
        exact_mod_cast hb b hbmem
    · rw [hzero]
      norm_num
  · rw [convertGeneric, if_neg hcond] at h
    exact Except.noConfusion h

/-! ### Helper lemmas: slice assignment and the training loop -/

theorem sliceAssign_fit {α : Type} (arr : List α) (b : Nat) (vals : List α)
    (err : LoadError) (h : b + vals.length ≤ arr.length) :
    sliceAssign arr b (b + vals.length) vals err =
      .ok (arr.take b ++ vals ++ arr.drop (b + vals.length)) := by
  have hb : min b arr.length = b := by omega
  have he : min (b + vals.length) arr.length = b + vals.length := by omega
  rw [sliceAssign, hb, he, if_pos (by omega)]

theorem sliceAssign_overflow {α : Type} (arr : List α) (b : Nat)
    (vals : List α) (err : LoadError) (hb : b ≤ arr.length)
    (h : arr.length < b + vals.length) (hone : vals.length ≠ 1) :
    sliceAssign arr b (b + vals.length) vals err = .error err := by
  have hbm : min b arr.length = b := by omega
  have hem : min (b + vals.length) arr.length = arr.length := by omega
  rw [sliceAssign, hbm, hem, if_neg (by omega), if_neg hone]

theorem sliceAssign_nil {α : Type} (arr : List α) (b : Nat)
    (err : LoadError) : sliceAssign arr b b ([] : List α) err = .ok arr := by
  rw [sliceAssign, if_pos (by simp)]
  simp

theorem sliceAssign_drop_one {α : Type} (arr : List α) (b : Nat) (v : α)
    (err : LoadError) (hb : arr.length ≤ b) :
    sliceAssign arr b (b + 1) [v] err = .ok arr := by
  have hbm : min b arr.length = arr.length := by omega
  have hem : min (b + 1) arr.length = arr.length := by omega
  rw [sliceAssign, hbm, hem, if_neg (by simp), if_pos (by simp)]
  simp

theorem sliceAssign_ok_inv {α : Type} {arr : List α} {b e : Nat}
    {vals out : List α} {err : LoadError} (hbe : b ≤ e)
    (h : sliceAssign arr b e vals err = .ok out) :
    out.length = arr.length ∧ ∀ x ∈ out, x ∈ arr ∨ x ∈ vals := by
  by_cases hcond : vals.length = min e arr.length - min b arr.length
  · rw [sliceAssign, if_pos hcond] at h
    have hout := Except.ok.inj h
    constructor
    · rw [← hout]
      simp only [List.length_append, List.length_take, List.length_drop]
      omega
    · intro x hx
      rw [← hout] at hx
      rcases List.mem_append.mp hx with hx1 | hx2
      · rcases List.mem_append.mp hx1 with hx3 | hx4
        · exact Or.inl (List.mem_of_mem_take hx3)
        · exact Or.inr hx4
      · exact Or.inl (List.mem_of_mem_drop hx2)
  · rw [sliceAssign, if_neg hcond] at h
    by_cases hone : vals.length = 1
    · rw [if_pos hone] at h
      obtain ⟨v, rfl⟩ := List.length_eq_one.mp hone
      rw [List.flatMap_singleton] at h
      have hout := Except.ok.inj h
      constructor
      · rw [← hout]
        simp only [List.length_append, List.length_take, List.length_drop,
          List.length_replicate]
        omega
      · intro x hx
        rw [← hout] at hx
        rcases List.mem_append.mp hx with hx1 | hx2
        · rcases List.mem_append.mp hx1 with hx3 | hx4
          · exact Or.inl (List.mem_of_mem_take hx3)
          · rw [List.eq_of_mem_replicate hx4]
            exact Or.inr (List.mem_cons_self v [])
        · exact Or.inl (List.mem_of_mem_drop hx2)
    · rw [if_neg hone] at h
      exact Except.noConfusion h

theorem fill_length {α : Type} (l v : List α) (b : Nat)
    (h : b + v.length ≤ l.length) :
    (l.take b ++ v ++ l.drop (b + v.length)).length = l.length := by
  simp only [List.length_append, List.length_take, List.length_drop]
  omega

theorem fill_take {α : Type} (l v : List α) (b : Nat)
    (h : b + v.length ≤ l.length) :
    (l.take b ++ v ++ l.drop (b + v.length)).take (b + v.length) =
      l.take b ++ v := by
  have hl : (l.take b ++ v).length = b + v.length := by
    simp only [List.length_append, List.length_take]
    omega
  rw [List.take_left' hl]

theorem fill_drop {α : Type} (l v : List α) (b m : Nat)
    (h : b + v.length ≤ l.length) :
    (l.take b ++ v ++ l.drop (b + v.length)).drop (b + v.length + m) =
      l.drop (b + v.length + m) := by
  have hl : (l.take b ++ v).length = b + v.length := by
    simp only [List.length_append, List.length_take]
    omega
  rw [show b + v.length + m = (l.take b ++ v).length + m by rw [hl],
    List.drop_append, List.drop_drop, hl]

theorem batchSize_of_ok {fs : FS} {i : Nat} {p}
    (h : batchOf fs i = .ok p) : batchSize fs i = p.1.length := by
  rw [batchSize, h]

theorem batchImages_of_ok {fs : FS} {i : Nat} {p}
    (h : batchOf fs i = .ok p) : batchImages fs i = p.1 := by
  rw [batchImages, h]

theorem batchCls_of_ok {fs : FS} {i : Nat} {p}
    (h : batchOf fs i = .ok p) : batchCls fs i = p.2 := by
  rw [batchCls, h]

theorem sizeSum_nil (fs : FS) : sizeSum fs [] = 0 := rfl

theorem sizeSum_cons (fs : FS) (i : Nat) (idxs : List Nat) :
    sizeSum fs (i :: idxs) = batchSize fs i + sizeSum fs idxs := by
  simp [sizeSum]

theorem trainLoop_nil (fs : FS) (b : Nat) (images : List Image)
    (cls : List Int) : trainLoop fs [] b images cls = .ok (images, cls) :=
  rfl

theorem trainLoop_cons_err (fs : FS) (i : Nat) (rest : List Nat) (b : Nat)
    (images : List Image) (cls : List Int) (e : LoadError)
    (h : batchOf fs i = .error e) :
    trainLoop fs (i :: rest) b images cls = .error e := by
  rw [trainLoop, show _load_data fs ("data_batch_" ++ toString (i + 1)) =
    .error e from h]
  rfl

theorem trainLoop_cons_ok (fs : FS) (i : Nat) (rest : List Nat) (b : Nat)
    (images : List Image) (cls : List Int) (p)
    (hp : batchOf fs i = .ok p) (hlab : p.2.length = p.1.length)
    (hfit : b + p.1.length ≤ images.length)
    (hlen : cls.length = images.length) :
    trainLoop fs (i :: rest) b images cls =
      trainLoop fs rest (b + p.1.length)
        (images.take b ++ p.1 ++ images.drop (b + p.1.length))
        (cls.take b ++ p.2 ++ cls.drop (b + p.1.length)) := by
  rw [trainLoop, show _load_data fs ("data_batch_" ++ toString (i + 1)) =
    .ok p from hp, except_bind_ok]
  rw [sliceAssign_fit images b p.1 .ShardSizeMismatch hfit, except_bind_ok]
  have hfit2 : b + p.2.length ≤ cls.length := by omega
  have he : b + p.1.length = b + p.2.length := by omega
  rw [he, sliceAssign_fit cls b p.2 .ValueError hfit2, except_bind_ok, ← he]

theorem trainLoop_cons_overflow (fs : FS) (i : Nat) (rest : List Nat)
    (b : Nat) (images : List Image) (cls : List Int) (p)
    (hp : batchOf fs i = .ok p) (hb : b ≤ images.length)
    (hover : images.length < b + p.1.length) (hone : p.1.length ≠ 1) :
    trainLoop fs (i :: rest) b images cls = .error .ShardSizeMismatch := by
  rw [trainLoop, show _load_data fs ("data_batch_" ++ toString (i + 1)) =
    .ok p from hp, except_bind_ok]
  rw [sliceAssign_overflow images b p.1 .ShardSizeMismatch hb hover hone]
  rfl

theorem trainLoop_cons_drop (fs : FS) (i : Nat) (rest : List Nat)
    (b : Nat) (images : List Image) (cls : List Int) (v : Image) (w : Int)
    (hp : batchOf fs i = .ok ([v], [w])) (hbi : images.length ≤ b)
    (hbc : cls.length ≤ b) :
    trainLoop fs (i :: rest) b images cls =
      trainLoop fs rest (b + 1) images cls := by
  rw [trainLoop, show _load_data fs ("data_batch_" ++ toString (i + 1)) =
    .ok ([v], [w]) from hp, except_bind_ok]
  show (do
    let images2 ← sliceAssign images b (b + 1) [v] .ShardSizeMismatch
    let cls2 ← sliceAssign cls b (b + 1) [w] .ValueError
    trainLoop fs rest (b + 1) images2 cls2) = _
  rw [sliceAssign_drop_one images b v .ShardSizeMismatch hbi,
    except_bind_ok, sliceAssign_drop_one cls b w .ValueError hbc,
    except_bind_ok]

theorem trainLoop_cons_empty (fs : FS) (i : Nat) (rest : List Nat)
    (b : Nat) (images : List Image) (cls : List Int)
    (hp : batchOf fs i = .ok ([], [])) :
    trainLoop fs (i :: rest) b images cls =
      trainLoop fs rest b images cls := by
  rw [trainLoop, show _load_data fs ("data_batch_" ++ toString (i + 1)) =
    .ok ([], []) from hp, except_bind_ok]
  show (do
    let images2 ← sliceAssign images b b ([] : List Image) .ShardSizeMismatch
    let cls2 ← sliceAssign cls b b ([] : List Int) .ValueError
    trainLoop fs rest b images2 cls2) = _
  rw [sliceAssign_nil images b .ShardSizeMismatch, except_bind_ok,
    sliceAssign_nil cls b .ValueError, except_bind_ok]

theorem trainLoop_reach (fs : FS) :
    ∀ (pre suf : List Nat) (b : Nat) (images : List Image) (cls : List Int),
      cls.length = images.length →
      b + sizeSum fs pre ≤ images.length →
      (∀ i ∈ pre, okConsistent fs i) →
      trainLoop fs (pre ++ suf) b images cls =
        trainLoop fs suf (b + sizeSum fs pre)
          (images.take b ++ (pre.map (batchImages fs)).flatten ++
            images.drop (b + sizeSum fs pre))
          (cls.take b ++ (pre.map (batchCls fs)).flatten ++
            cls.drop (b + sizeSum fs pre)) := by
  intro pre
  induction pre with
  | nil =>
      intro suf b images cls hlen hfit hok
      simp [sizeSum_nil, List.take_append_drop]
  | cons i pre ih =>
      intro suf b images cls hlen hfit hok
      obtain ⟨p, hp, hlab⟩ := hok i (List.mem_cons_self i pre)
      have hbs : batchSize fs i = p.1.length := batchSize_of_ok hp
      have hsum : sizeSum fs (i :: pre) = p.1.length + sizeSum fs pre := by
        rw [sizeSum_cons, hbs]
      have hfitc : b + (p.1.length + sizeSum fs pre) ≤ images.length := by
        rw [hsum] at hfit
        omega
      have hfit1 : b + p.1.length ≤ images.length := by omega
      rw [List.cons_append,
        trainLoop_cons_ok fs i (pre ++ suf) b images cls p hp hlab hfit1 hlen]
      have hlen2i :
          (images.take b ++ p.1 ++ images.drop (b + p.1.length)).length =
            images.length := fill_length images p.1 b hfit1
      have hlen2c :
          (cls.take b ++ p.2 ++ cls.drop (b + p.1.length)).length =
            cls.length := by
        rw [show b + p.1.length = b + p.2.length by omega]
        exact fill_length cls p.2 b (by omega)
      rw [ih suf (b + p.1.length)
        (images.take b ++ p.1 ++ images.drop (b + p.1.length))
        (cls.take b ++ p.2 ++ cls.drop (b + p.1.length))
        (by rw [hlen2c, hlen2i]; exact hlen)
        (by rw [hlen2i]; omega)
        (fun j hj => hok j (List.mem_cons_of_mem i hj))]
      have harg1 : b + p.1.length + sizeSum fs pre =
          b + sizeSum fs (i :: pre) := by
        rw [hsum]
        omega
      have harg2 :
          (images.take b ++ p.1 ++ images.drop (b + p.1.length)).take
              (b + p.1.length) ++ (pre.map (batchImages fs)).flatten ++
            (images.take b ++ p.1 ++ images.drop (b + p.1.length)).drop
              (b + p.1.length + sizeSum fs pre) =
          images.take b ++ ((i :: pre).map (batchImages fs)).flatten ++
            images.drop (b + sizeSum fs (i :: pre)) := by
        rw [fill_take images p.1 b hfit1,
          fill_drop images p.1 b (sizeSum fs pre) hfit1,
          List.map_cons, List.flatten_cons, batchImages_of_ok hp, harg1]
        simp [List.append_assoc]
      have harg3 :
          (cls.take b ++ p.2 ++ cls.drop (b + p.1.length)).take
              (b + p.1.length) ++ (pre.map (batchCls fs)).flatten ++
            (cls.take b ++ p.2 ++ cls.drop (b + p.1.length)).drop
              (b + p.1.length + sizeSum fs pre) =
          cls.take b ++ ((i :: pre).map (batchCls fs)).flatten ++
            cls.drop (b + sizeSum fs (i :: pre)) := by
        rw [show b + p.1.length = b + p.2.length by omega] at harg1 ⊢
        rw [fill_take cls p.2 b (by omega),
          fill_drop cls p.2 b (sizeSum fs pre) (by omega),
          List.map_cons, List.flatten_cons, batchCls_of_ok hp, harg1]
        simp [List.append_assoc]
      rw [harg2, harg3, harg1]

theorem trainLoop_ok_inv (fs : FS) (P : Image → Prop) (Q : Int → Prop)
    (hbatch : ∀ i p, batchOf fs i = .ok p →
      (∀ img ∈ p.1, P img) ∧ (∀ c ∈ p.2, Q c)) :
    ∀ (idxs : List Nat) (b : Nat) (images : List Image) (cls : List Int)
      (out : List Image × List Int),
      trainLoop fs idxs b images cls = .ok out →
      (∀ img ∈ images, P img) → (∀ c ∈ cls, Q c) →
      out.1.length = images.length ∧ out.2.length = cls.length ∧
        (∀ img ∈ out.1, P img) ∧ (∀ c ∈ out.2, Q c) := by
  intro idxs
  induction idxs with
  | nil =>
      intro b images cls out h hP hQ
      rw [trainLoop_nil] at h
      have hout := Except.ok.inj h
      rw [← hout]
      exact ⟨rfl, rfl, hP, hQ⟩
  | cons i rest ih =>
      intro b images cls out h hP hQ
      simp only [trainLoop] at h
      cases hb : _load_data fs ("data_batch_" ++ toString (i + 1)) with
      | error e =>
          rw [hb, except_bind_error] at h
          exact Except.noConfusion h
      | ok p =>
          simp only [hb, except_bind_ok] at h
          cases hs1 : sliceAssign images b (b + p.1.length) p.1
              .ShardSizeMismatch with
          | error e =>
              rw [hs1, except_bind_error] at h
              exact Except.noConfusion h
          | ok images2 =>
              simp only [hs1, except_bind_ok] at h
              cases hs2 : sliceAssign cls b (b + p.1.length) p.2
                  .ValueError with
              | error e =>
                  rw [hs2, except_bind_error] at h
                  exact Except.noConfusion h
              | ok cls2 =>
                  simp only [hs2, except_bind_ok] at h
                  have hi1 := sliceAssign_ok_inv (by omega) hs1
                  have hi2 := sliceAssign_ok_inv (by omega) hs2
                  have hPb := (hbatch i p hb).1
                  have hQb := (hbatch i p hb).2
                  have hP2 : ∀ img ∈ images2, P img := fun img hm =>
                    (hi1.2 img hm).elim (hP img) (hPb img)
                  have hQ2 : ∀ c ∈ cls2, Q c := fun c hm =>
                    (hi2.2 c hm).elim (hQ c) (hQb c)
                  have ihr := ih (b + p.1.length) images2 cls2 out h hP2 hQ2
                  exact ⟨by rw [ihr.1, hi1.1], by rw [ihr.2.1, hi2.1],
                    ihr.2.2⟩

/-! ### Helper lemmas: constant shards, shard totals, range decomposition -/

theorem map_range_const {α : Type} {n : Nat} {f : Nat → α} {v : α}
    (h : ∀ i < n, f i = v) : (List.range n).map f = List.replicate n v := by
  apply List.eq_replicate_iff.mpr
  refine ⟨by simp, fun x hx => ?_⟩
  obtain ⟨i, hi, rfl⟩ := List.mem_map.mp hx
  exact h i (List.mem_range.mp hi)

theorem replicate_getD {α : Type} {N i : Nat} (v d : α) (h : i < N) :
    (List.replicate N v).getD i d = v := by
  rw [List.getD_eq_getElem?_getD, List.getElem?_replicate, if_pos h]
  rfl

theorem convertGeneric_replicate (ch sz m b : Nat) (hch : 0 < ch)
    (hsz : 0 < sz) :
    convertGeneric ch sz (List.replicate (m * (ch * sz * sz)) b) =
      .ok (List.replicate m (constImage ch sz ((b : ℚ) / 255))) := by
  have hK : 0 < ch * sz * sz := by positivity
  have hdvd : ch * sz * sz ∣ (List.replicate (m * (ch * sz * sz)) b).length :=
    ⟨m, by simp [Nat.mul_comm]⟩
  rw [convertGeneric_if hK hdvd]
  congr 1
  rw [List.map_replicate, reshape4]
  simp only [List.length_replicate]
  rw [Nat.mul_div_cancel _ hK, List.map_map]
  apply map_range_const
  intro n hn
  simp only [Function.comp_apply, transpose_hwc,
    getD_range_map _ _ hch, getD_range_map _ _ hsz,
    List.length_map, List.length_range]
  rw [constImage]
  apply map_range_const
  intro y hy
  apply map_range_const
  intro x hx
  apply map_range_const
  intro c hc
  simp only [getD_range_map _ _ hc, getD_range_map _ _ hy,
    getD_range_map _ _ hx]
  exact replicate_getD _ _ (index_bound hn hy hx hc)

theorem batchImages_length (fs : FS) (i : Nat) :
    (batchImages fs i).length = batchSize fs i := by
  rw [batchImages, batchSize]
  cases batchOf fs i <;> rfl

theorem batchCls_length {fs : FS} {i : Nat} (h : okConsistent fs i) :
    (batchCls fs i).length = batchSize fs i := by
  obtain ⟨p, hp, hlab⟩ := h
  rw [batchCls_of_ok hp, batchSize_of_ok hp, hlab]

theorem flatten_batchImages_length (fs : FS) (idxs : List Nat) :
    ((idxs.map (batchImages fs)).flatten).length = sizeSum fs idxs := by
  rw [List.length_flatten, sizeSum, List.map_map]
  exact congrArg List.sum
    (List.map_congr_left fun i _ => batchImages_length fs i)

theorem flatten_batchCls_length {fs : FS} {idxs : List Nat}
    (hok : ∀ i ∈ idxs, okConsistent fs i) :
    ((idxs.map (batchCls fs)).flatten).length = sizeSum fs idxs := by
  rw [List.length_flatten, sizeSum, List.map_map]
  exact congrArg List.sum
    (List.map_congr_left fun i hi => batchCls_length (hok i hi))

theorem range5_decomp {k : Nat} (hk : k < 5) :
    ∃ rest, List.range _num_files_train = List.range k ++ k :: rest := by
  show ∃ rest, List.range 5 = List.range k ++ k :: rest
  obtain ⟨m, hm⟩ : ∃ m, 5 - k = m + 1 := ⟨5 - k - 1, by omega⟩
  refine ⟨((List.range m).map Nat.succ).map (k + ·), ?_⟩
  conv_lhs => rw [show (5 : Nat) = k + (m + 1) by omega]
  rw [List.range_add, List.range_succ_eq_map, List.map_cons]
  simp

/-! ### Helper lemmas: assembled training split -/

theorem load_training_ok (fs : FS)
    (hok : ∀ j < _num_files_train, okConsistent fs j)
    (hval : ∀ j < _num_files_train, ∀ c ∈ batchCls fs j,
      0 ≤ c ∧ c < (num_classes : Int))
    (hfit : sizeSum fs (List.range _num_files_train) ≤ _num_images_train) :
    load_training_data fs = .ok
      (trainImagesOf fs ++
        List.replicate (_num_images_train -
          sizeSum fs (List.range _num_files_train)) zeroImage,
       trainClsOf fs ++
        List.replicate (_num_images_train -
          sizeSum fs (List.range _num_files_train)) 0,
       (trainClsOf fs ++
        List.replicate (_num_images_train -
          sizeSum fs (List.range _num_files_train)) 0).map ohRow) := by
  have hreach := trainLoop_reach fs (List.range _num_files_train) [] 0
    (List.replicate _num_images_train zeroImage)
    (List.replicate _num_images_train 0)
    (by simp)
    (by simpa using hfit)
    (fun i hi => hok i (List.mem_range.mp hi))
  rw [List.append_nil] at hreach
  rw [load_training_data, hreach]
  simp only [Nat.zero_add, List.take_zero, List.nil_append,
    List.drop_replicate, trainLoop_nil, except_bind_ok]
  have hCval : ∀ c ∈ (trainClsOf fs ++
      List.replicate (_num_images_train -
        sizeSum fs (List.range _num_files_train)) (0 : Int)),
      0 ≤ c ∧ c < (num_classes : Int) := by
    intro c hc
    rcases List.mem_append.mp hc with h1 | h2
    · rw [trainClsOf] at h1
      obtain ⟨l, hl, hcl⟩ := List.mem_flatten.mp h1
      obtain ⟨j, hj, rfl⟩ := List.mem_map.mp hl
      exact hval j (List.mem_range.mp hj) c hcl
    · rw [List.eq_of_mem_replicate h2]
      norm_num [num_classes]
  rw [show ((List.range _num_files_train).map (batchCls fs)).flatten =
      trainClsOf fs from rfl,
    show ((List.range _num_files_train).map (batchImages fs)).flatten =
      trainImagesOf fs from rfl]
  rw [show one_hot_encoded (trainClsOf fs ++
      List.replicate (_num_images_train -
        sizeSum fs (List.range _num_files_train)) 0) (some num_classes) =
      one_hot_rows num_classes (trainClsOf fs ++
      List.replicate (_num_images_train -
        sizeSum fs (List.range _num_files_train)) 0) from rfl]
  rw [one_hot_rows_ok (valid_of_bounds hCval), except_bind_ok]
  rfl

theorem load_training_ok_lengths {fs : FS}
    {r : List Image × List Int × List (List ℚ)}
    (h : load_training_data fs = .ok r) :
    r.1.length = _num_images_train ∧ r.2.1.length = _num_images_train ∧
      r.2.2.length = _num_images_train := by
  rw [load_training_data] at h
  cases hl : trainLoop fs (List.range _num_files_train) 0
      (List.replicate _num_images_train zeroImage)
      (List.replicate _num_images_train 0) with
  | error e =>
      rw [hl, except_bind_error] at h
      exact Except.noConfusion h
  | ok p =>
      simp only [hl, except_bind_ok] at h
      cases ho : one_hot_encoded p.2 (some num_classes) with
      | error e =>
          rw [ho, except_bind_error] at h
          exact Except.noConfusion h
      | ok oh =>
          simp only [ho, except_bind_ok] at h
          have h2 : (Except.ok (p.1, p.2, oh) : Except LoadError _) = .ok r := h
          have hr := Except.ok.inj h2
          have hinv := trainLoop_ok_inv fs (fun _ => True) (fun _ => True)
            (fun _ _ _ => ⟨fun _ _ => trivial, fun _ _ => trivial⟩)
            _ _ _ _ _ hl (fun _ _ => trivial) (fun _ _ => trivial)
          have hoh := (one_hot_rows_ok_inv ho).1
          rw [← hr]
          refine ⟨?_, ?_, ?_⟩
          · rw [hinv.1]; simp
          · rw [hinv.2.1]; simp
          · have : oh.length = p.2.length := by rw [hoh]; simp
            rw [this, hinv.2.1]
            simp

/-! ### Helper lemmas: concrete environments -/

set_option maxRecDepth 8000

theorem batchOf_fsEmpty (i : Nat) : batchOf fsEmpty i = .ok ([], []) := rfl

theorem sizeSum_fsEmpty :
    sizeSum fsEmpty (List.range _num_files_train) = 0 := by
  have hz : ∀ i ∈ List.range _num_files_train,
      batchSize fsEmpty i = (fun _ => 0) i := fun i _ => by
    rw [batchSize_of_ok (batchOf_fsEmpty i)]
    rfl
  rw [sizeSum, List.map_congr_left hz]
  simp

theorem trainImagesOf_fsEmpty : trainImagesOf fsEmpty = [] := by
  have hz : ∀ i ∈ List.range _num_files_train,
      batchImages fsEmpty i = (fun _ => ([] : List Image)) i := fun i _ =>
    batchImages_of_ok (batchOf_fsEmpty i)
  rw [trainImagesOf, List.map_congr_left hz]
  simp

theorem trainClsOf_fsEmpty : trainClsOf fsEmpty = [] := by
  have hz : ∀ i ∈ List.range _num_files_train,
      batchCls fsEmpty i = (fun _ => ([] : List Int)) i := fun i _ =>
    batchCls_of_ok (batchOf_fsEmpty i)
  rw [trainClsOf, List.map_congr_left hz]
  simp

theorem load_training_fsEmpty :
    load_training_data fsEmpty = .ok
      (List.replicate _num_images_train zeroImage,
       List.replicate _num_images_train 0,
       List.replicate _num_images_train (ohRow 0)) := by
  have h := load_training_ok fsEmpty
    (fun j _ => ⟨([], []), batchOf_fsEmpty j, rfl⟩)
    (fun j _ c hc => absurd
      (by rwa [batchCls_of_ok (batchOf_fsEmpty j)] at hc)
      (List.not_mem_nil c))
    (by rw [sizeSum_fsEmpty]; exact Nat.zero_le _)
  rw [h, sizeSum_fsEmpty, trainImagesOf_fsEmpty, trainClsOf_fsEmpty]
  simp

theorem load_test_fsEmpty : load_test_data fsEmpty = .ok ([], [], []) := rfl

theorem load_class_names_fsEmpty : load_class_names fsEmpty = .ok [] := rfl

theorem batchOf_fsAB_0 : batchOf fsAB 0 =
    .ok (List.replicate 2 (constImage num_channels img_size ((7 : ℚ) / 255)),
      [1, 2]) := by
  have hfs : fsAB (DATA_PATH ++ ("data_batch_" ++ toString (0 + 1))) =
      .ok ⟨List.replicate (2 * (num_channels * img_size * img_size)) 7,
        [1, 2], []⟩ := rfl
  simp only [batchOf, _load_data, _unpickle, hfs, except_bind_ok,
    _convert_images]
  rw [convertGeneric_replicate num_channels img_size 2 7
    (by norm_num [num_channels]) (by norm_num [img_size])]
  rfl

theorem batchOf_fsAB_1 : batchOf fsAB 1 =
    .ok (List.replicate 3 (constImage num_channels img_size ((9 : ℚ) / 255)),
      [3, 4, 5]) := by
  have hfs : fsAB (DATA_PATH ++ ("data_batch_" ++ toString (1 + 1))) =
      .ok ⟨List.replicate (3 * (num_channels * img_size * img_size)) 9,
        [3, 4, 5], []⟩ := rfl
  simp only [batchOf, _load_data, _unpickle, hfs, except_bind_ok,
    _convert_images]
  rw [convertGeneric_replicate num_channels img_size 3 9
    (by norm_num [num_channels]) (by norm_num [img_size])]
  rfl

theorem batchOf_fsAB_2 : batchOf fsAB 2 = .ok ([], []) := rfl

theorem batchOf_fsAB_3 : batchOf fsAB 3 = .ok ([], []) := rfl

theorem batchOf_fsAB_4 : batchOf fsAB 4 = .ok ([], []) := rfl

theorem sizeSum_fsAB : sizeSum fsAB (List.range _num_files_train) = 5 := by
  rw [show List.range _num_files_train = [0, 1, 2, 3, 4] from rfl]
  rw [sizeSum, List.map_cons, List.map_cons, List.map_cons, List.map_cons,
    List.map_cons, List.map_nil,
    batchSize_of_ok batchOf_fsAB_0, batchSize_of_ok batchOf_fsAB_1,
    batchSize_of_ok batchOf_fsAB_2, batchSize_of_ok batchOf_fsAB_3,
    batchSize_of_ok batchOf_fsAB_4]
  simp

theorem trainImagesOf_fsAB : trainImagesOf fsAB =
    List.replicate 2 (constImage num_channels img_size ((7 : ℚ) / 255)) ++
      List.replicate 3 (constImage num_channels img_size ((9 : ℚ) / 255)) := by
  rw [trainImagesOf, show List.range _num_files_train = [0, 1, 2, 3, 4]
    from rfl]
  rw [List.map_cons, List.map_cons, List.map_cons, List.map_cons,
    List.map_cons, List.map_nil,
    batchImages_of_ok batchOf_fsAB_0, batchImages_of_ok batchOf_fsAB_1,
    batchImages_of_ok batchOf_fsAB_2, batchImages_of_ok batchOf_fsAB_3,
    batchImages_of_ok batchOf_fsAB_4]
  simp

theorem trainClsOf_fsAB : trainClsOf fsAB = [1, 2, 3, 4, 5] := by
  rw [trainClsOf, show List.range _num_files_train = [0, 1, 2, 3, 4]
    from rfl]
  rw [List.map_cons, List.map_cons, List.map_cons, List.map_cons,
    List.map_cons, List.map_nil,
    batchCls_of_ok batchOf_fsAB_0, batchCls_of_ok batchOf_fsAB_1,
    batchCls_of_ok batchOf_fsAB_2, batchCls_of_ok batchOf_fsAB_3,
    batchCls_of_ok batchOf_fsAB_4]
  simp

theorem load_training_fsAB :
    load_training_data fsAB = .ok
      (List.replicate 2 (constImage num_channels img_size ((7 : ℚ) / 255)) ++
        List.replicate 3 (constImage num_channels img_size ((9 : ℚ) / 255)) ++
        List.replicate (_num_images_train - 5) zeroImage,
       ([1, 2, 3, 4, 5] : List Int) ++ List.replicate (_num_images_train - 5) 0,
       (([1, 2, 3, 4, 5] : List Int) ++
         List.replicate (_num_images_train - 5) 0).map ohRow) := by
  have hok : ∀ j < _num_files_train, okConsistent fsAB j := by
    intro j hj
    have hj5 : j < 5 := hj
    interval_cases j
    · exact ⟨_, batchOf_fsAB_0, rfl⟩
    · exact ⟨_, batchOf_fsAB_1, rfl⟩
    · exact ⟨_, batchOf_fsAB_2, rfl⟩
    · exact ⟨_, batchOf_fsAB_3, rfl⟩
    · exact ⟨_, batchOf_fsAB_4, rfl⟩
  have hval : ∀ j < _num_files_train, ∀ c ∈ batchCls fsAB j,
      0 ≤ c ∧ c < (num_classes : Int) := by
    intro j hj c hc
    have hj5 : j < 5 := hj
    interval_cases j
    · rw [batchCls_of_ok batchOf_fsAB_0] at hc
      fin_cases hc <;> decide
    · rw [batchCls_of_ok batchOf_fsAB_1] at hc
      fin_cases hc <;> decide
    · rw [batchCls_of_ok batchOf_fsAB_2] at hc
      exact absurd hc (List.not_mem_nil c)
    · rw [batchCls_of_ok batchOf_fsAB_3] at hc
      exact absurd hc (List.not_mem_nil c)
    · rw [batchCls_of_ok batchOf_fsAB_4] at hc
      exact absurd hc (List.not_mem_nil c)
  have h := load_training_ok fsAB hok hval
    (by rw [sizeSum_fsAB]; norm_num [_num_images_train, _num_files_train,
      _images_per_file])
  rw [h, sizeSum_fsAB, trainImagesOf_fsAB, trainClsOf_fsAB]

/-! ### Helper lemmas: test split and facade -/

theorem convertGeneric_ok_length {ch sz : Nat} {raw : List Nat}
    {imgs : List Image} (h : convertGeneric ch sz raw = .ok imgs) :
    imgs.length = raw.length / (ch * sz * sz) := by
  by_cases hcond : 0 < ch * sz * sz ∧ ch * sz * sz ∣ raw.length
  · rw [convertGeneric, if_pos hcond] at h
    rw [← Except.ok.inj h]
    simp [reshape4]
  · rw [convertGeneric, if_neg hcond] at h
    exact Except.noConfusion h

theorem load_test_ok_inv {fs : FS}
    {r : List Image × List Int × List (List ℚ)}
    (h : load_test_data fs = .ok r) :
    ∃ d, fs (DATA_PATH ++ "test_batch") = .ok d ∧
      _convert_images d.data = .ok r.1 ∧ r.2.1 = d.labels ∧
      one_hot_encoded d.labels (some num_classes) = .ok r.2.2 := by
  rw [load_test_data] at h
  cases hp : _load_data fs "test_batch" with
  | error e =>
      rw [hp, except_bind_error] at h
      exact Except.noConfusion h
  | ok p =>
      simp only [hp, except_bind_ok] at h
      cases ho : one_hot_encoded p.2 (some num_classes) with
      | error e =>
          rw [ho, except_bind_error] at h
          exact Except.noConfusion h
      | ok oh =>
          simp only [ho, except_bind_ok] at h
          have h2 : (Except.ok (p.1, p.2, oh) : Except LoadError _) = .ok r := h
          have hr := Except.ok.inj h2
          rw [_load_data] at hp
          cases hu : _unpickle fs "test_batch" with
          | error e =>
              rw [hu, except_bind_error] at hp
              exact Except.noConfusion hp
          | ok d =>
              simp only [hu, except_bind_ok] at hp
              cases hc : _convert_images d.data with
              | error e =>
                  rw [hc, except_bind_error] at hp
                  exact Except.noConfusion hp
              | ok imgs =>
                  simp only [hc, except_bind_ok] at hp
                  have hp2 : (Except.ok (imgs, d.labels) : Except LoadError _) =
                      .ok p := hp
                  have hpp := Except.ok.inj hp2
                  subst hr
                  subst hpp
                  exact ⟨d, hu, hc, rfl, ho⟩

theorem load_data_ok_inv {fs : FS} {pf : PlotFn} {flag : Bool}
    {r : List String × Dataset} (h : load_data fs pf flag = .ok r) :
    ∃ cn, load_class_names fs = .ok cn := by
  rw [load_data] at h
  cases h1 : load_training_data fs with
  | error e =>
      rw [h1, except_bind_error] at h
      exact Except.noConfusion h
  | ok t =>
      simp only [h1, except_bind_ok] at h
      cases h2 : load_test_data fs with
      | error e =>
          rw [h2, except_bind_error] at h
          exact Except.noConfusion h
      | ok u =>
          simp only [h2, except_bind_ok] at h
          cases h3 : load_class_names fs with
          | error e =>
              rw [h3, except_bind_error] at h
              exact Except.noConfusion h
          | ok cn => exact ⟨cn, rfl⟩

theorem load_data_run (fs : FS) (pf : PlotFn) (flag : Bool)
    {t u : List Image × List Int × List (List ℚ)} {cn : List String}
    (ht : load_training_data fs = .ok t) (hu : load_test_data fs = .ok u)
    (hc : load_class_names fs = .ok cn) :
    load_data fs pf flag =
      (if flag then pf (t.1.take 9) cn (t.2.1.take 9) else .ok ()) >>=
        fun _ => .ok (cn,
          ⟨⟨t.1, t.2.1, t.2.2⟩, ⟨u.1, u.2.1, u.2.2⟩⟩) := by
  rw [load_data, ht, except_bind_ok, hu, except_bind_ok, hc, except_bind_ok]
  cases flag <;> rfl

/-! ### Helper lemmas: numpy index characterization, invariants -/

theorem npIndex_none {n : Nat} {i : Int}
    (h : (n : Int) ≤ i ∨ i < -(n : Int)) : npIndex n i = none := by
  rw [npIndex]
  split_ifs with h1 h2
  · exact absurd h1 (by omega)
  · exact absurd h2 (by omega)
  · rfl

theorem npIndex_isSome_of_wrap {n : Nat} {i : Int}
    (h : -(n : Int) ≤ i ∧ i < (n : Int)) : (npIndex n i).isSome := by
  by_cases hi : i < 0
  · rw [npIndex, if_neg (by omega), if_pos (by omega)]
    rfl
  · rw [npIndex, if_pos (by omega)]
    rfl

theorem npIndex_getD_wrap {n : Nat} {i : Int}
    (h : -(n : Int) ≤ i ∧ i < (n : Int)) :
    (npIndex n i).getD 0 =
      if i < 0 then (i + n).toNat else i.toNat := by
  by_cases hi : i < 0
  · rw [if_pos hi, npIndex, if_neg (by omega), if_pos (by omega)]
    rfl
  · rw [if_neg hi, npIndex, if_pos (by omega)]
    rfl

theorem batchOf_ok_inv {fs : FS} {i : Nat} {p : List Image × List Int}
    (h : batchOf fs i = .ok p) :
    ∃ d, fs (DATA_PATH ++ ("data_batch_" ++ toString (i + 1))) = .ok d ∧
      _convert_images d.data = .ok p.1 ∧ p.2 = d.labels := by
  rw [batchOf, _load_data] at h
  cases hu : _unpickle fs ("data_batch_" ++ toString (i + 1)) with
  | error e =>
      rw [hu, except_bind_error] at h
      exact Except.noConfusion h
  | ok d =>
      simp only [hu, except_bind_ok] at h
      cases hc : _convert_images d.data with
      | error e =>
          rw [hc, except_bind_error] at h
          exact Except.noConfusion h
      | ok imgs =>
          simp only [hc, except_bind_ok] at h
          have h2 : (Except.ok (imgs, d.labels) : Except LoadError _) = .ok p := h
          have hp := Except.ok.inj h2
          subst hp
          exact ⟨d, hu, hc, rfl⟩

theorem splitRows {cls : List Int}
    (hval : ∀ c ∈ cls, 0 ≤ c ∧ c < (num_classes : Int)) :
    ∀ i < (cls.map ohRow).length,
      ((cls.map ohRow).getD i []).getD (cls.getD i 0).toNat 0 = 1 ∧
      ∀ j < num_classes, j ≠ (cls.getD i 0).toNat →
        ((cls.map ohRow).getD i []).getD j 0 = 0 := by
  intro i hi
  rw [List.length_map] at hi
  rw [getD_map_lt ohRow [] 0 hi]
  have hc := hval (cls.getD i 0) (getD_mem 0 hi)
  have hgd : (npIndex num_classes (cls.getD i 0)).getD 0 =
      (cls.getD i 0).toNat := by
    rw [npIndex_of_valid hc.1 hc.2]
    rfl
  rw [ohRow, hgd]
  have htn : (cls.getD i 0).toNat < num_classes := by omega
  exact ⟨eyeRow_getD_self htn, fun j hj hne => eyeRow_getD_ne hj hne⟩

theorem ImgOK_constImage {q : ℚ} (h0 : 0 ≤ q) (h1 : q ≤ 1) :
    ImgOK (constImage num_channels img_size q) := by
  refine ⟨by simp [constImage], fun row hrow => ?_⟩
  rw [List.eq_of_mem_replicate hrow]
  refine ⟨by simp, fun px hpx => ?_⟩
  rw [List.eq_of_mem_replicate hpx]
  refine ⟨by simp, fun v hv => ?_⟩
  rw [List.eq_of_mem_replicate hv]
  exact ⟨h0, h1⟩

theorem ImgOK_zeroImage : ImgOK zeroImage :=
  ImgOK_constImage le_rfl (by norm_num)

/-! ### Helper lemmas: the exactly-full environment -/

theorem batchOf_fsFull_0 : batchOf fsFull 0 =
    .ok (List.replicate _num_images_train
        (constImage num_channels img_size ((7 : ℚ) / 255)),
      List.replicate _num_images_train 1) := by
  have hfs : fsFull (DATA_PATH ++ ("data_batch_" ++ toString (0 + 1))) =
      .ok ⟨List.replicate
          (_num_images_train * (num_channels * img_size * img_size)) 7,
        List.replicate _num_images_train 1, []⟩ := rfl
  have hcv : _convert_images (List.replicate
      (_num_images_train * (num_channels * img_size * img_size)) 7) =
    .ok (List.replicate _num_images_train
      (constImage num_channels img_size ((7 : ℚ) / 255))) :=
    convertGeneric_replicate num_channels img_size _num_images_train 7
      (by norm_num [num_channels]) (by norm_num [img_size])
  rw [batchOf, _load_data, _unpickle, hfs, except_bind_ok]
  show (do
    let images ← _convert_images (List.replicate
      (_num_images_train * (num_channels * img_size * img_size)) 7)
    pure (images, List.replicate _num_images_train (1 : Int))) = _
  rw [hcv, except_bind_ok]
  rfl

theorem batchOf_fsFull_1 : batchOf fsFull 1 =
    .ok ([constImage num_channels img_size ((9 : ℚ) / 255)], [3]) := by
  have hfs : fsFull (DATA_PATH ++ ("data_batch_" ++ toString (1 + 1))) =
      .ok ⟨List.replicate (1 * (num_channels * img_size * img_size)) 9,
        [3], []⟩ := rfl
  simp only [batchOf, _load_data, _unpickle, hfs, except_bind_ok,
    _convert_images]
  rw [convertGeneric_replicate num_channels img_size 1 9
    (by norm_num [num_channels]) (by norm_num [img_size])]
  rfl

theorem batchOf_fsFull_2 : batchOf fsFull 2 = .ok ([], []) := rfl

theorem batchOf_fsFull_3 : batchOf fsFull 3 = .ok ([], []) := rfl

theorem batchOf_fsFull_4 : batchOf fsFull 4 = .ok ([], []) := rfl

theorem load_training_fsFull :
    load_training_data fsFull = .ok
      (List.replicate _num_images_train
        (constImage num_channels img_size ((7 : ℚ) / 255)),
       List.replicate _num_images_train 1,
       List.replicate _num_images_train (ohRow 1)) := by
  rw [load_training_data,
    show List.range _num_files_train = [0, 1, 2, 3, 4] from rfl]
  rw [trainLoop_cons_ok fsFull 0 [1, 2, 3, 4] 0
    (List.replicate _num_images_train zeroImage)
    (List.replicate _num_images_train 0)
    (List.replicate _num_images_train
      (constImage num_channels img_size ((7 : ℚ) / 255)),
     List.replicate _num_images_train 1)
    batchOf_fsFull_0 (by simp) (by simp) (by simp)]
  simp only [List.take_zero, List.nil_append, List.length_replicate,
    Nat.zero_add, List.drop_replicate, Nat.sub_self, List.replicate_zero,
    List.append_nil]
  rw [trainLoop_cons_drop fsFull 1 [2, 3, 4] _num_images_train _ _
    (constImage num_channels img_size ((9 : ℚ) / 255)) 3
    batchOf_fsFull_1 (by simp) (by simp)]
  rw [trainLoop_cons_empty fsFull 2 [3, 4] _ _ _ batchOf_fsFull_2,
    trainLoop_cons_empty fsFull 3 [4] _ _ _ batchOf_fsFull_3,
    trainLoop_cons_empty fsFull 4 [] _ _ _ batchOf_fsFull_4,
    trainLoop_nil, except_bind_ok]
  rw [show one_hot_encoded (List.replicate _num_images_train (1 : Int))
      (some num_classes) =
    one_hot_rows num_classes (List.replicate _num_images_train 1)
    from rfl]
  rw [one_hot_rows_ok (fun i hi => by
    rw [List.eq_of_mem_replicate hi]
    rfl)]
  rw [List.map_replicate, except_bind_ok]
  rfl

/-! ### Claim theorems -/

/-- C2 (counterexample): the claim says a negative class id always fails
with `InvalidClassId`, but `np.eye(4)[[-1]]` silently wraps around and
returns the one-hot row `[0, 0, 0, 1]` — the call succeeds. -/
theorem one_hot_negative_wraps :
    one_hot_encoded [-1] (some 4) = .ok [[0, 0, 0, 1]] ∧
      one_hot_encoded [-1] (some 4) ≠ .error .InvalidClassId := by
  decide

/-- C2 (amended): `one_hot_encoded` with an explicit `num_classes = n`
fails with `InvalidClassId` when some id is `≥ n` or `< -n`; ids in
`[-n, n)` all succeed, a negative id wrapping around to row `n + id`
rather than failing. -/
theorem one_hot_encoded_range (n : Nat) (cls : List Int) :
    ((∃ i ∈ cls, (n : Int) ≤ i ∨ i < -(n : Int)) →
      one_hot_encoded cls (some n) = .error .InvalidClassId) ∧
    ((∀ i ∈ cls, -(n : Int) ≤ i ∧ i < (n : Int)) →
      one_hot_encoded cls (some n) = .ok (cls.map fun (i : Int) =>
        eyeRow n (if i < 0 then (i + n).toNat else i.toNat))) := by
  constructor
  · intro ⟨i, hi, hout⟩
    refine one_hot_rows_error fun hall => ?_
    have := hall i hi
    rw [npIndex_none hout] at this
    exact Bool.noConfusion this
  · intro hall
    rw [show one_hot_encoded cls (some n) = one_hot_rows n cls from rfl]
    rw [one_hot_rows_ok fun i hi => npIndex_isSome_of_wrap (hall i hi)]
    congr 1
    exact List.map_congr_left fun i hi => by
      rw [npIndex_getD_wrap (hall i hi)]

/-- C2 (witness): a fully in-range call, evaluated through the amended
theorem. -/
theorem one_hot_encoded_range_witness :
    one_hot_encoded [0, 2, 1] (some 4) = .ok ([0, 2, 1].map fun (i : Int) =>
      eyeRow 4 (if i < 0 then (i + 4).toNat else i.toNat)) :=
  (one_hot_encoded_range 4 [0, 2, 1]).2 (by decide)

/-- C3: with `num_classes` omitted, the encoder derives
`num_classes = max(class_ids) - 1` and then encodes against that size; in
particular for `[0, 1, 2]` the derived value is `1`, too small for id `2`,
and the call raises `InvalidClassId` instead of silently truncating. -/
theorem one_hot_derived_quirk :
    (∀ cls : List Int, cls ≠ [] → 0 ≤ derive_num_classes cls →
      one_hot_encoded cls none =
        one_hot_rows (derive_num_classes cls).toNat cls) ∧
    derive_num_classes [0, 1, 2] = 1 ∧
    one_hot_encoded [0, 1, 2] none = .error .InvalidClassId := by
  refine ⟨fun cls h1 h2 => ?_, by decide, by decide⟩
  simp only [one_hot_encoded, if_neg h1, if_neg (not_lt.mpr h2)]

/-- C3 (witness): the derivation branch evaluated at `[0, 1, 2]`. -/
theorem one_hot_derived_quirk_witness :
    one_hot_encoded [0, 1, 2] none =
      one_hot_rows (derive_num_classes [0, 1, 2]).toNat [0, 1, 2] :=
  one_hot_derived_quirk.1 [0, 1, 2] (by decide) (by decide)

/-- C4: for a buffer of `count` images' worth of bytes, `_convert_images`
succeeds; the output has `count` images, each of shape
`[img_size, img_size, num_channels]` with every value in `[0, 1]`, and
element `(n, y, x, c)` is byte `n*3072 + c*1024 + y*32 + x` of the flat
channel-major buffer divided by 255 (the reshape-then-transpose layout). -/
theorem convert_images_spec (count : Nat) (raw : List Nat)
    (hlen : raw.length = count * img_size_flat)
    (hbytes : ∀ b ∈ raw, b ≤ 255) :
    ∃ imgs, _convert_images raw = .ok imgs ∧ imgs.length = count ∧
      (∀ img ∈ imgs, ImgOK img) ∧
      ∀ n < count, ∀ y < img_size, ∀ x < img_size, ∀ c < num_channels,
        (((imgs.getD n []).getD y []).getD x []).getD c 0 =
          (raw.getD (n * img_size_flat + c * (img_size * img_size) +
            y * img_size + x) 0 : ℚ) / 255 := by
  obtain ⟨imgs, heq, hl2, helem⟩ :=
    @convertGeneric_spec num_channels img_size count raw
      (by norm_num [num_channels]) (by norm_num [img_size])
      (by rw [hlen]; norm_num [img_size_flat, img_size, num_channels])
  refine ⟨imgs, heq, hl2, fun img himg => convertGeneric_shape heq hbytes
    img himg, fun n hn y hy x hx c hc => ?_⟩
  have h := helem n y x c hn hy hx hc
  rw [show n * img_size_flat + c * (img_size * img_size) +
      y * img_size + x =
      n * (num_channels * img_size * img_size) +
      c * (img_size * img_size) + y * img_size + x by
    norm_num [img_size_flat, img_size, num_channels]]
  exact h

/-- C4 (witness): one all-zero image's worth of bytes. -/
theorem convert_images_spec_witness :
    ∃ imgs, _convert_images (List.replicate img_size_flat 0) = .ok imgs ∧
      imgs.length = 1 ∧
      (∀ img ∈ imgs, ImgOK img) ∧
      ∀ n < 1, ∀ y < img_size, ∀ x < img_size, ∀ c < num_channels,
        (((imgs.getD n []).getD y []).getD x []).getD c 0 =
          (((List.replicate img_size_flat 0).getD
            (n * img_size_flat + c * (img_size * img_size) +
              y * img_size + x) 0 : Nat) : ℚ) / 255 :=
  convert_images_spec 1 (List.replicate img_size_flat 0)
    (by simp)
    (fun b hb => by rw [List.eq_of_mem_replicate hb]; norm_num)

/-- C5: the reconstruction algorithm on the 2×2 single-channel synthetic
shard `[0, 128, 255, 64]` (channel-major) yields the image
`[[0/255, 128/255], [255/255, 64/255]]` in row-major, channel-last
order. -/
theorem convert_round_trip :
    convertGeneric 1 2 [0, 128, 255, 64] =
      .ok [[[[(0 : ℚ) / 255], [128 / 255]], [[255 / 255], [64 / 255]]]] :=
  rfl

/-- C1 (amended): during training-split assembly, once the first `k`
shards have been consumed consistently within capacity: (a) if shard `k`
loads with at least two images and they would push the cumulative offset
past the pre-allocated `_num_images_train`, the call fails with
`ShardSizeMismatch` (the numpy broadcast failure; a single-image shard
arriving at exactly-full capacity instead broadcasts into the empty
slice and is silently dropped — see the counterexample); (b) an error
from the shard loader (`ShardUnavailable`, a conversion failure) is
propagated unmodified; (c) an `InvalidClassId` (or any) error from the
label encoder is propagated unmodified; (d) a successful call returns
arrays of the full pre-allocated length. -/
theorem load_training_error_contract (fs : FS) (k : Nat)
    (hk : k < _num_files_train)
    (hpre : ∀ j < k, okConsistent fs j)
    (hfit : sizeSum fs (List.range k) ≤ _num_images_train) :
    (∀ p, batchOf fs k = .ok p → 2 ≤ p.1.length →
      _num_images_train < sizeSum fs (List.range k) + p.1.length →
      load_training_data fs = .error .ShardSizeMismatch) ∧
    (∀ e, batchOf fs k = .error e → load_training_data fs = .error e) ∧
    (∀ p e, trainLoop fs (List.range _num_files_train) 0
        (List.replicate _num_images_train zeroImage)
        (List.replicate _num_images_train 0) = .ok p →
      one_hot_encoded p.2 (some num_classes) = .error e →
      load_training_data fs = .error e) ∧
    (∀ r, load_training_data fs = .ok r →
      r.1.length = _num_images_train ∧ r.2.1.length = _num_images_train ∧
        r.2.2.length = _num_images_train) := by
  obtain ⟨rest, hdec⟩ := range5_decomp hk
  have hreach := trainLoop_reach fs (List.range k) (k :: rest) 0
    (List.replicate _num_images_train zeroImage)
    (List.replicate _num_images_train 0)
    (by simp)
    (by simpa using hfit)
    (fun j hj => hpre j (List.mem_range.mp hj))
  have hAlen : (List.take 0 (List.replicate _num_images_train zeroImage) ++
      ((List.range k).map (batchImages fs)).flatten ++
      List.drop (0 + sizeSum fs (List.range k))
        (List.replicate _num_images_train zeroImage)).length =
      _num_images_train := by
    simp only [List.length_append, List.length_take, List.length_drop,
      List.length_replicate, flatten_batchImages_length]
    omega
  refine ⟨?_, ?_, ?_, ?_⟩
  · intro p hp htwo hover
    rw [load_training_data, hdec, hreach,
      trainLoop_cons_overflow fs k rest (0 + sizeSum fs (List.range k))
        _ _ p hp (by rw [hAlen]; omega) (by rw [hAlen]; omega) (by omega)]
    rfl
  · intro e hp
    rw [load_training_data, hdec, hreach,
      trainLoop_cons_err fs k rest (0 + sizeSum fs (List.range k)) _ _ e hp]
    rfl
  · intro p e hl ho
    rw [load_training_data]
    simp only [hl, except_bind_ok]
    rw [ho]
    rfl
  · exact fun r h => load_training_ok_lengths h

/-- C1 (witness): an unreadable first shard aborts the whole load with
the propagated `ShardUnavailable`. -/
theorem load_training_error_contract_witness :
    load_training_data fsBad = .error .ShardUnavailable :=
  (load_training_error_contract fsBad 0 (by norm_num [_num_files_train])
    (fun j hj => absurd hj (Nat.not_lt_zero j))
    (by simp [sizeSum])).2.1 .ShardUnavailable rfl

/-- C1 (counterexample): the defensive bound check does not exist — when
the pre-allocated array is exactly full (shard 1 supplies all 50000
images) and shard 2 supplies one more image, the cumulative offset would
exceed the capacity, yet the slice assignment broadcasts the single
image into the empty selection `images[50000:50001]` as a silent no-op:
the call succeeds (no `ShardSizeMismatch`) and returns a split that is
missing the supplied 50001st image. -/
theorem training_overflow_silent_drop :
    batchOf fsFull 1 =
      .ok ([constImage num_channels img_size ((9 : ℚ) / 255)], [3]) ∧
    sizeSum fsFull (List.range 1) = _num_images_train ∧
    load_training_data fsFull = .ok
      (List.replicate _num_images_train
        (constImage num_channels img_size ((7 : ℚ) / 255)),
       List.replicate _num_images_train 1,
       List.replicate _num_images_train (ohRow 1)) ∧
    load_training_data fsFull ≠ .error .ShardSizeMismatch := by
  refine ⟨batchOf_fsFull_1, ?_, load_training_fsFull, ?_⟩
  · rw [show List.range 1 = [0] from rfl, sizeSum, List.map_cons,
      List.map_nil, batchSize_of_ok batchOf_fsFull_0]
    simp
  · rw [load_training_fsFull]
    intro h
    exact Except.noConfusion h

/-- C6 (counterexample): with shard A supplying 2 images and shard B 3
(the remaining shards empty), the merged training split is *not* a
5-image split — the returned image array keeps the pre-allocated 50000
rows. -/
theorem merge_not_five :
    Except.map (fun r => r.1.length) (load_training_data fsAB) =
      .ok 50000 ∧
    Except.map (fun r => r.1.length) (load_training_data fsAB) ≠
      .ok 5 := by
  rw [load_training_fsAB]
  constructor
  · show Except.ok (_ : Nat) = _
    norm_num [_num_images_train, _num_files_train, _images_per_file]
  · intro h
    have h2 := Except.ok.inj h
    simp only [List.length_append, List.length_replicate] at h2
    norm_num [_num_images_train, _num_files_train, _images_per_file] at h2

/-- C6 (amended): merging shard A (2 images) then shard B (3 images),
remaining shards empty, yields a split whose first 5 rows are exactly
A's images followed by B's in original order (offsets advance by each
shard's own count), but the split keeps the pre-allocated
`_num_images_train` rows, the trailing entries remaining zero. -/
theorem merge_concat (fs : FS) (A B : List Image) (clsA clsB : List Int)
    (h0 : batchOf fs 0 = .ok (A, clsA)) (hA : clsA.length = A.length)
    (hA2 : A.length = 2)
    (h1 : batchOf fs 1 = .ok (B, clsB)) (hB : clsB.length = B.length)
    (hB3 : B.length = 3)
    (h2 : batchOf fs 2 = .ok ([], [])) (h3 : batchOf fs 3 = .ok ([], []))
    (h4 : batchOf fs 4 = .ok ([], []))
    (hv : ∀ c ∈ clsA ++ clsB, 0 ≤ c ∧ c < (num_classes : Int)) :
    load_training_data fs = .ok
      (A ++ B ++ List.replicate (_num_images_train - 5) zeroImage,
       clsA ++ clsB ++ List.replicate (_num_images_train - 5) 0,
       (clsA ++ clsB ++ List.replicate (_num_images_train - 5) 0).map
         ohRow) := by
  have hok : ∀ j < _num_files_train, okConsistent fs j := by
    intro j hj
    have hj5 : j < 5 := hj
    interval_cases j
    · exact ⟨_, h0, hA⟩
    · exact ⟨_, h1, hB⟩
    · exact ⟨_, h2, rfl⟩
    · exact ⟨_, h3, rfl⟩
    · exact ⟨_, h4, rfl⟩
  have hval : ∀ j < _num_files_train, ∀ c ∈ batchCls fs j,
      0 ≤ c ∧ c < (num_classes : Int) := by
    intro j hj c hc
    have hj5 : j < 5 := hj
    interval_cases j
    · rw [batchCls_of_ok h0] at hc
      exact hv c (List.mem_append.mpr (Or.inl hc))
    · rw [batchCls_of_ok h1] at hc
      exact hv c (List.mem_append.mpr (Or.inr hc))
    · rw [batchCls_of_ok h2] at hc
      exact absurd hc (List.not_mem_nil c)
    · rw [batchCls_of_ok h3] at hc
      exact absurd hc (List.not_mem_nil c)
    · rw [batchCls_of_ok h4] at hc
      exact absurd hc (List.not_mem_nil c)
  have hsz : sizeSum fs (List.range _num_files_train) = 5 := by
    rw [show List.range _num_files_train = [0, 1, 2, 3, 4] from rfl,
      sizeSum, List.map_cons, List.map_cons, List.map_cons, List.map_cons,
      List.map_cons, List.map_nil, batchSize_of_ok h0, batchSize_of_ok h1,
      batchSize_of_ok h2, batchSize_of_ok h3, batchSize_of_ok h4]
    simp [hA2, hB3]
  have himg : trainImagesOf fs = A ++ B := by
    rw [trainImagesOf, show List.range _num_files_train = [0, 1, 2, 3, 4]
      from rfl, List.map_cons, List.map_cons, List.map_cons, List.map_cons,
      List.map_cons, List.map_nil, batchImages_of_ok h0,
      batchImages_of_ok h1, batchImages_of_ok h2, batchImages_of_ok h3,
      batchImages_of_ok h4]
    simp
  have hcls : trainClsOf fs = clsA ++ clsB := by
    rw [trainClsOf, show List.range _num_files_train = [0, 1, 2, 3, 4]
      from rfl, List.map_cons, List.map_cons, List.map_cons, List.map_cons,
      List.map_cons, List.map_nil, batchCls_of_ok h0, batchCls_of_ok h1,
      batchCls_of_ok h2, batchCls_of_ok h3, batchCls_of_ok h4]
    simp
  have h := load_training_ok fs hok hval
    (by rw [hsz]
        norm_num [_num_images_train, _num_files_train, _images_per_file])
  rw [h, hsz, himg, hcls]

/-- C6 (witness): the amended theorem evaluated in the concrete
environment `fsAB`. -/
theorem merge_concat_witness :
    load_training_data fsAB = .ok
      (List.replicate 2 (constImage num_channels img_size ((7 : ℚ) / 255)) ++
        List.replicate 3 (constImage num_channels img_size ((9 : ℚ) / 255)) ++
        List.replicate (_num_images_train - 5) zeroImage,
       ([1, 2] : List Int) ++ [3, 4, 5] ++
         List.replicate (_num_images_train - 5) 0,
       (([1, 2] : List Int) ++ [3, 4, 5] ++
         List.replicate (_num_images_train - 5) 0).map ohRow) :=
  merge_concat fsAB _ _ _ _ batchOf_fsAB_0 (by simp) (by simp)
    batchOf_fsAB_1 (by simp) (by simp) batchOf_fsAB_2 batchOf_fsAB_3
    batchOf_fsAB_4 (by decide)

/-- C10: under the data-model preconditions (readable consistent shards
whose ids are valid and whose total fits the capacity), the training
split always comes back with first dimension exactly
`_num_images_train = 50000`: the success case is exactly the shard
contents at their offsets followed by the untouched zero-initialized
tail, and any successful call has arrays of length 50000. -/
theorem load_training_fixed_size (fs : FS)
    (hok : ∀ j < _num_files_train, okConsistent fs j)
    (hval : ∀ j < _num_files_train, ∀ c ∈ batchCls fs j,
      0 ≤ c ∧ c < (num_classes : Int))
    (hfit : sizeSum fs (List.range _num_files_train) ≤ _num_images_train) :
    (∀ r, load_training_data fs = .ok r →
      r.1.length = _num_images_train ∧
        r.2.1.length = _num_images_train) ∧
    load_training_data fs = .ok
      (trainImagesOf fs ++ List.replicate (_num_images_train -
        sizeSum fs (List.range _num_files_train)) zeroImage,
       trainClsOf fs ++ List.replicate (_num_images_train -
        sizeSum fs (List.range _num_files_train)) 0,
       (trainClsOf fs ++ List.replicate (_num_images_train -
        sizeSum fs (List.range _num_files_train)) 0).map ohRow) :=
  ⟨fun _ h => ⟨(load_training_ok_lengths h).1,
    (load_training_ok_lengths h).2.1⟩,
   load_training_ok fs hok hval hfit⟩

/-- C10 (witness): five empty shards still produce the full
zero-initialized 50000-row split. -/
theorem load_training_fixed_size_witness :
    load_training_data fsEmpty = .ok
      (trainImagesOf fsEmpty ++ List.replicate (_num_images_train -
        sizeSum fsEmpty (List.range _num_files_train)) zeroImage,
       trainClsOf fsEmpty ++ List.replicate (_num_images_train -
        sizeSum fsEmpty (List.range _num_files_train)) 0,
       (trainClsOf fsEmpty ++ List.replicate (_num_images_train -
        sizeSum fsEmpty (List.range _num_files_train)) 0).map ohRow) :=
  (load_training_fixed_size fsEmpty
    (fun j _ => ⟨([], []), batchOf_fsEmpty j, rfl⟩)
    (fun j _ c hc => absurd
      (by rwa [batchCls_of_ok (batchOf_fsEmpty j)] at hc)
      (List.not_mem_nil c))
    (by rw [sizeSum_fsEmpty]; exact Nat.zero_le _)).2

/-- C7: Under the data-model shard preconditions (`ValidFS`: byte-valued
pixels, class ids in `[0, num_classes)`, labels sized to the pixel
buffer), every split returned by `load_training_data` or `load_test_data`
satisfies the invariants: equal lengths of images, class ids and one-hot
rows; row `i` of the one-hot matrix is `1.0` exactly at column
`class_ids[i]` and `0.0` elsewhere; every pixel lies in `[0, 1]`; and
images have the `[N, height, width, channels]` axis order. -/
theorem split_invariants (fs : FS) (hv : ValidFS fs) :
    (∀ r, load_training_data fs = .ok r → SplitOK r) ∧
    (∀ r, load_test_data fs = .ok r → SplitOK r) := by
  have hbatch : ∀ i p, batchOf fs i = .ok p →
      (∀ img ∈ p.1, ImgOK img) ∧
      (∀ c ∈ p.2, 0 ≤ c ∧ c < (num_classes : Int)) := by
    intro i p hp
    obtain ⟨d, hd, hconv, hlab⟩ := batchOf_ok_inv hp
    obtain ⟨hbytes, hlabels, _⟩ := hv _ _ hd
    have hconv2 : convertGeneric num_channels img_size d.data = .ok p.1 :=
      hconv
    refine ⟨fun img himg => convertGeneric_shape hconv2 hbytes img himg,
      fun c hc => ?_⟩
    rw [hlab] at hc
    exact hlabels c hc
  constructor
  · intro r hr
    rw [load_training_data] at hr
    cases hl : trainLoop fs (List.range _num_files_train) 0
        (List.replicate _num_images_train zeroImage)
        (List.replicate _num_images_train 0) with
    | error e =>
        rw [hl, except_bind_error] at hr
        exact Except.noConfusion hr
    | ok p =>
        simp only [hl, except_bind_ok] at hr
        cases ho : one_hot_encoded p.2 (some num_classes) with
        | error e =>
            rw [ho, except_bind_error] at hr
            exact Except.noConfusion hr
        | ok oh =>
            simp only [ho, except_bind_ok] at hr
            have hr2 : (Except.ok (p.1, p.2, oh) : Except LoadError _) =
              .ok r := hr
            have hre := Except.ok.inj hr2
            subst hre
            have hinv := trainLoop_ok_inv fs ImgOK
              (fun c => 0 ≤ c ∧ c < (num_classes : Int)) hbatch
              _ _ _ _ _ hl
              (fun img him => by
                rw [List.eq_of_mem_replicate him]
                exact ImgOK_zeroImage)
              (fun c hc => by
                rw [List.eq_of_mem_replicate hc]
                norm_num [num_classes])
            have hohinv := one_hot_rows_ok_inv ho
            refine ⟨?_, ?_, hinv.2.2.1, ?_⟩
            · show p.1.length = p.2.length
              rw [hinv.1, hinv.2.1]
              simp
            · show p.2.length = oh.length
              rw [hohinv.1]
              simp
            · show ∀ i < oh.length, (oh.getD i []).getD
                  (p.2.getD i 0).toNat 0 = 1 ∧
                ∀ j < num_classes, j ≠ (p.2.getD i 0).toNat →
                  (oh.getD i []).getD j 0 = 0
              rw [hohinv.1]
              exact splitRows hinv.2.2.2
  · intro r hr
    obtain ⟨d, hd, hconv, hcls, hoh⟩ := load_test_ok_inv hr
    obtain ⟨hbytes, hlabels, hsize⟩ := hv _ _ hd
    have hconv2 : convertGeneric num_channels img_size d.data = .ok r.1 :=
      hconv
    have hohinv := @one_hot_rows_ok_inv num_classes d.labels _ hoh
    have hlen1 : r.1.length = d.labels.length := by
      rw [convertGeneric_ok_length hconv2, hsize,
        show img_size_flat = num_channels * img_size * img_size by
          norm_num [img_size_flat, img_size, num_channels],
        Nat.mul_div_cancel _ (by norm_num [num_channels, img_size])]
    refine ⟨?_, ?_, fun img him =>
      convertGeneric_shape hconv2 hbytes img him, ?_⟩
    · rw [hlen1, hcls]
    · rw [hcls, hohinv.1]
      simp
    · show ∀ i < r.2.2.length, (r.2.2.getD i []).getD
          (r.2.1.getD i 0).toNat 0 = 1 ∧
        ∀ j < num_classes, j ≠ (r.2.1.getD i 0).toNat →
          (r.2.2.getD i []).getD j 0 = 0
      rw [hohinv.1, hcls]
      exact splitRows hlabels

/-- C7 (witness): the invariants hold of the concrete splits produced in
the empty-shard environment. -/
theorem split_invariants_witness :
    SplitOK (List.replicate _num_images_train zeroImage,
      List.replicate _num_images_train 0,
      List.replicate _num_images_train (ohRow 0)) ∧
    SplitOK ([], [], []) := by
  have hv : ValidFS fsEmpty := by
    intro name d hd
    have hd2 : Except.ok (⟨[], [], []⟩ : RawDict) = .ok d := hd
    rw [← Except.ok.inj hd2]
    exact ⟨fun b hb => absurd hb (List.not_mem_nil b),
      fun c hc => absurd hc (List.not_mem_nil c), by simp⟩
  exact ⟨(split_invariants fsEmpty hv).1 _ load_training_fsEmpty,
    (split_invariants fsEmpty hv).2 _ load_test_fsEmpty⟩

/-- C9: an unopenable/undeserializable metadata shard makes
`load_class_names` fail with `ShardUnavailable`, and a `load_data` call
then returns no dataset value at all — no partially populated Dataset is
handed to the caller. -/
theorem class_names_failure (fs : FS) (pf : PlotFn) (flag : Bool)
    (h : fs (DATA_PATH ++ "batches.meta") = .error .ShardUnavailable) :
    load_class_names fs = .error .ShardUnavailable ∧
    ∀ r, load_data fs pf flag ≠ .ok r := by
  have hcn : load_class_names fs = .error .ShardUnavailable := by
    rw [load_class_names, _unpickle, h]
    rfl
  refine ⟨hcn, fun r hr => ?_⟩
  obtain ⟨cn, hcn2⟩ := load_data_ok_inv hr
  rw [hcn] at hcn2
  exact Except.noConfusion hcn2

/-- C9 (witness): the fully unavailable environment. -/
theorem class_names_failure_witness :
    load_class_names fsBad = .error .ShardUnavailable ∧
      load_data fsBad plotNoop false ≠
        .ok ([], ⟨⟨[], [], []⟩, ⟨[], [], []⟩⟩) :=
  ⟨(class_names_failure fsBad plotNoop false rfl).1,
   (class_names_failure fsBad plotNoop false rfl).2 _⟩

/-- C8 (counterexample): the preview call is *not* fire-and-forget — in an
environment where every load succeeds, `load_data` with the flag set
returns the full dataset when the visualization collaborator succeeds,
but propagates the collaborator's exception (returning no dataset) when
it raises. -/
theorem preview_failure_propagates :
    load_data fsEmpty plotNoop true = .ok ([],
      ⟨⟨List.replicate _num_images_train zeroImage,
        List.replicate _num_images_train 0,
        List.replicate _num_images_train (ohRow 0)⟩, ⟨[], [], []⟩⟩) ∧
    load_data fsEmpty plotBad true = .error .ValueError := by
  constructor
  · rw [load_data_run fsEmpty plotNoop true load_training_fsEmpty
      load_test_fsEmpty load_class_names_fsEmpty]
    rfl
  · rw [load_data_run fsEmpty plotBad true load_training_fsEmpty
      load_test_fsEmpty load_class_names_fsEmpty]
    rfl

/-- C8 (amended): the visualization collaborator's return value is
discarded — if it returns normally, `load_data` with the preview flag
returns exactly the same fully populated class names and Dataset as a
flagless call — but an exception it raises propagates: `load_data` then
fails with that error instead of returning the Dataset. -/
theorem preview_contract (fs : FS) (pf pf2 : PlotFn)
    {t u : List Image × List Int × List (List ℚ)} {cn : List String}
    (ht : load_training_data fs = .ok t) (hu : load_test_data fs = .ok u)
    (hc : load_class_names fs = .ok cn) :
    (pf (t.1.take 9) cn (t.2.1.take 9) = .ok () →
      load_data fs pf true = load_data fs pf2 false) ∧
    (∀ e, pf (t.1.take 9) cn (t.2.1.take 9) = .error e →
      load_data fs pf true = .error e) := by
  constructor
  · intro hp
    rw [load_data_run fs pf true ht hu hc,
      load_data_run fs pf2 false ht hu hc, hp]
    rfl
  · intro e hp
    rw [load_data_run fs pf true ht hu hc, hp]
    rfl

/-- C8 (witness): with a collaborator that returns normally, the preview
call leaves the result identical to the flagless call. -/
theorem preview_contract_witness :
    load_data fsEmpty plotNoop true = load_data fsEmpty plotNoop false :=
  (preview_contract fsEmpty plotNoop plotNoop load_training_fsEmpty
    load_test_fsEmpty load_class_names_fsEmpty).1 rfl

end LoadCifar10
